import Mathlib

/-!
DC motor speed control firmware (`src/avr/dc_control.c`)

A shallow embedding of the firmware's control program.  The program is
modelled as a state machine over `State`: the peripheral registers it
touches, the two flags shared with the interrupt handlers, the locals of
`main`, the bytes the host will still send (`rx`) and a log of every
peripheral access (`out`).

C integer arithmetic is made explicit.  On the AVR target `int` is 16 bits
wide, so the literal `39998` has type `long`; the products below stay well
inside 32 bits, and every store to a register truncates to the register's
width (`% 2^8` or `% 2^16`).
-/

namespace DcControl

/-! ## Constants of `dc_control.c` -/

/-- Macro `#define OCR_TOP_VALUE 39998`. -/
abbrev OCR_TOP_VALUE : Int := 39998
/-- Macro `#define CWISE 0xAA`. -/
abbrev CWISE : Nat := 0xAA
/-- Macro `#define CCWISE 0xBB`. -/
abbrev CCWISE : Nat := 0xBB
/-- Macro `#define OF '>'`, the open-session flag. -/
abbrev OF : Nat := 62
/-- Macro `#define CF '<'`, the close-session flag. -/
abbrev CF : Nat := 60
/-- Macro `#define MIN_SPEED 100`. -/
abbrev MIN_SPEED : Nat := 100
/-- Macro `#define MAX_SPEED 200`. -/
abbrev MAX_SPEED : Nat := 200

/-! Bit positions from avr-libc's `<avr/io.h>` for the ATmega640/1280/2560
family (the parts that have Timer 5 and port H). -/

abbrev WGM11 : Nat := 1
abbrev COM1A1 : Nat := 7
abbrev COM1B1 : Nat := 5
abbrev WGM13 : Nat := 4
abbrev WGM12 : Nat := 3
abbrev CS10 : Nat := 0
abbrev WGM52 : Nat := 3
abbrev CS50 : Nat := 0
abbrev CS52 : Nat := 2
abbrev OCIE5A : Nat := 1
abbrev PH5 : Nat := 5
abbrev PH6 : Nat := 6

/-- Macro `#define TCCRA_MASK (1<<WGM11)|(1<<COM1A1)|(1<<COM1B1);`. -/
def TCCRA_MASK : Nat := (1 <<< WGM11) ||| (1 <<< COM1A1) ||| (1 <<< COM1B1)
/-- Macro `#define TCCRB_MASK (1<<WGM13)|(1<<WGM12)|(1<<CS10);`. -/
def TCCRB_MASK : Nat := (1 <<< WGM13) ||| (1 <<< WGM12) ||| (1 <<< CS10)

/-! ## Machine integers -/

/-- Conversion of a C integer value to `uint16_t`. -/
def toU16 (x : Int) : Nat := (x % 65536).toNat

/-- Bitwise complement of a non-negative `int` value, as the 16-bit pattern
the AVR computes (`int` is 16 bits wide). -/
def cnot (x : Nat) : Nat := 0xFFFF ^^^ x

/-! ## State -/

/-- The peripheral registers the firmware stores to. -/
inductive Reg
  | DDRE | PORTH | OCR3A | OCR5A | ICR3 | TCCR3A | TCCR3B | TCCR5A | TCCR5B | TIMSK5
  deriving DecidableEq, Repr

/-- Observable peripheral accesses, in program order. -/
inductive IOEv
  /-- A store to a peripheral register (value already truncated). -/
  | write (r : Reg) (v : Nat)
  /-- The store `UDR0 = b` of `UART_putChar`: one byte sent to the host. -/
  | tx (b : Nat)
  /-- Global interrupt disable. -/
  | cli
  /-- Global interrupt enable. -/
  | sei
  /-- A busy wait `_delay_ms(ms)`. -/
  | delay_ms (ms : Nat)
  deriving DecidableEq, Repr

/-- Accesses that fall outside the array a pointer was derived from.  C gives
them no meaning: what they do depends on what the build places next to the
array.  The model records them; `storeBuf` and `UART_putString_from` give
them no further effect, `storeBuf_in` gives the store its effect on a build
that places locals of `main` behind `buf`. -/
inductive MemEv
  /-- A store `buf[i] = v` with `i` past the end of the 4-byte `buf`. -/
  | store (i v : Nat)
  /-- A load at index `i`, past the end of a 4-byte array. -/
  | load (i : Nat)
  deriving DecidableEq, Repr

/-- The array `uint8_t buf[4]` of `main`. -/
structure Buf4 where
  b0 : Nat
  b1 : Nat
  b2 : Nat
  b3 : Nat
  deriving DecidableEq, Repr

/-- The store `buf[i] = v` for an index inside the array. -/
def Buf4.set (b : Buf4) (i v : Nat) : Buf4 :=
  match i with
  | 0 => { b with b0 := v }
  | 1 => { b with b1 := v }
  | 2 => { b with b2 := v }
  | 3 => { b with b3 := v }
  | _ => b

/-- The load `buf[i]` for an index inside the array. -/
def Buf4.get (b : Buf4) (i : Nat) : Nat :=
  match i with
  | 0 => b.b0
  | 1 => b.b1
  | 2 => b.b2
  | _ => b.b3

/-- Control points of `main` between which an interrupt handler may run. -/
inductive PC
  /-- Top of `while(true)`: about to send the handshake probe. -/
  | hsSend
  /-- Probe sent: about to read the host's reply with `UART_getString`. -/
  | hsRecv
  /-- The test of `while( running )`. -/
  | loopHead
  /-- The test of `if( timer_occurred )`. -/
  | loopTimer
  /-- The test of `if( msg_rcv )`. -/
  | loopMsg
  /-- After the operating loop: `PWM_stop()` and the resets. -/
  | drain
  /-- After `break`: `main` has returned. -/
  | halted
  /-- Waiting forever in `UART_getChar` for a byte that never arrives. -/
  | blocked
  deriving DecidableEq, Repr

/-- Machine state of the firmware. -/
structure State where
  pc : PC
  DDRE : Nat
  PORTH : Nat
  OCR3A : Nat
  OCR5A : Nat
  ICR3 : Nat
  TCCR3A : Nat
  TCCR3B : Nat
  TCCR5A : Nat
  TCCR5B : Nat
  TIMSK5 : Nat
  /-- The global interrupt enable bit of `SREG`. -/
  ien : Bool
  timer_occurred : Bool
  msg_rcv : Bool
  buf : Buf4
  smooth : Bool
  running : Bool
  _timestamp : Nat
  _speed : Nat
  _direction : Nat
  _packet_rate : Nat
  /-- The bytes the host sends that `UART_getChar` has not read yet. -/
  rx : List Nat
  /-- Peripheral accesses so far, oldest first. -/
  out : List IOEv
  /-- Out-of-bounds array accesses so far, oldest first. -/
  mem : List MemEv
  deriving DecidableEq, Repr

/-- Width in bits of a peripheral register. -/
def Reg.width : Reg → Nat
  | .OCR3A | .OCR5A | .ICR3 => 16
  | _ => 8

/-- A store to a peripheral register: truncate, update, log. -/
def wr (r : Reg) (v : Nat) (s : State) : State :=
  let w := v % 2 ^ r.width
  let s1 := { s with out := s.out ++ [IOEv.write r w] }
  match r with
  | .DDRE => { s1 with DDRE := w }
  | .PORTH => { s1 with PORTH := w }
  | .OCR3A => { s1 with OCR3A := w }
  | .OCR5A => { s1 with OCR5A := w }
  | .ICR3 => { s1 with ICR3 := w }
  | .TCCR3A => { s1 with TCCR3A := w }
  | .TCCR3B => { s1 with TCCR3B := w }
  | .TCCR5A => { s1 with TCCR5A := w }
  | .TCCR5B => { s1 with TCCR5B := w }
  | .TIMSK5 => { s1 with TIMSK5 := w }

/-- The instruction `cli()`. -/
def cli (s : State) : State := { s with ien := false, out := s.out ++ [IOEv.cli] }

/-- The instruction `sei()`. -/
def sei (s : State) : State := { s with ien := true, out := s.out ++ [IOEv.sei] }

/-- The busy wait `_delay_ms(ms)`. -/
def _delay_ms (ms : Nat) (s : State) : State := { s with out := s.out ++ [IOEv.delay_ms ms] }

/-! ## UART -/

/-- Routine `UART_getChar`: take the next byte from the host, or wait forever
(`none`) when the host sends nothing more. -/
def UART_getChar (s : State) : Option (Nat × State) :=
  match s.rx with
  | [] => none
  | d :: rest => some (d % 256, { s with rx := rest })

/-- The store `*buf = v` inside `UART_getString`, where `buf` points at index
`i` of `main`'s 4-byte array.  A store past the end of the array is recorded
and changes nothing else: this is the store on a build in which nothing the
program uses lies in the bytes behind `buf` (see `storeBuf_in` for the
others). -/
def storeBuf (i v : Nat) (s : State) : State :=
  if i < 4 then { s with buf := s.buf.set i v }
  else { s with mem := s.mem ++ [MemEv.store i v] }

/-- The loop of `UART_getString` with `buf - b0 = i`, reading from the
pending bytes.  Each list element is one `UART_getChar`.  Returns the state
and the returned count (`uint8_t`), or `none` when the host's bytes run out
before a terminator. -/
def UART_getString_from (i : Nat) (s : State) : List Nat → State × Option Nat
  | [] => ({ s with rx := [] }, none)
  | d :: rest =>
    let c := d % 256
    let s1 := storeBuf i c s
    if c = 0 then ({ s1 with rx := rest }, some ((i + 1) % 256))
    else if c = 10 ∨ c = 13 then
      ({ storeBuf (i + 1) 0 s1 with rx := rest }, some ((i + 2) % 256))
    else UART_getString_from (i + 1) s1 rest

/-- Routine `UART_getString(buf)` on `main`'s receive buffer. -/
def UART_getString (s : State) : State × Option Nat :=
  UART_getString_from 0 s s.rx

/-- The one-byte scalar locals of `main`, which share its stack frame with
`buf`. -/
inductive Local
  | smooth | running | _timestamp | _speed | _direction | _packet_rate
  deriving DecidableEq, Repr

/-- A one-byte store of `v` to a local of `main`; a `bool` reads as true when
its byte is not zero. -/
def storeLocal (x : Local) (v : Nat) (s : State) : State :=
  match x with
  | .smooth => { s with smooth := decide (v ≠ 0) }
  | .running => { s with running := decide (v ≠ 0) }
  | ._timestamp => { s with _timestamp := v }
  | ._speed => { s with _speed := v }
  | ._direction => { s with _direction := v }
  | ._packet_rate => { s with _packet_rate := v }

/-- The store `*buf = v` inside `UART_getString` on a build that places the
locals `behind` in the bytes that follow `buf`: `behind[k]` is the local at
the address of `buf[4 + k]`, and where the list ends nothing the program
uses follows.  A store past the end of the array is recorded and overwrites
the local that lies there.  With `behind = []` this is `storeBuf`. -/
def storeBuf_in (behind : List Local) (i v : Nat) (s : State) : State :=
  if i < 4 then { s with buf := s.buf.set i v }
  else
    match behind[i - 4]? with
    | some x => storeLocal x v { s with mem := s.mem ++ [MemEv.store i v] }
    | none => { s with mem := s.mem ++ [MemEv.store i v] }

/-- The loop of `UART_getString` on a build that places the locals `behind`
after `buf`; line by line as `UART_getString_from`. -/
def UART_getString_from_in (behind : List Local) (i : Nat) (s : State) :
    List Nat → State × Option Nat
  | [] => ({ s with rx := [] }, none)
  | d :: rest =>
    let c := d % 256
    let s1 := storeBuf_in behind i c s
    if c = 0 then ({ s1 with rx := rest }, some ((i + 1) % 256))
    else if c = 10 ∨ c = 13 then
      ({ storeBuf_in behind (i + 1) 0 s1 with rx := rest }, some ((i + 2) % 256))
    else UART_getString_from_in behind (i + 1) s1 rest

/-- Routine `UART_getString(buf)` on a build that places the locals `behind`
after `buf`. -/
def UART_getString_in (behind : List Local) (s : State) : State × Option Nat :=
  UART_getString_from_in behind 0 s s.rx

/-- Routine `UART_putChar(c)`. -/
def UART_putChar (c : Nat) (s : State) : State := { s with out := s.out ++ [IOEv.tx c] }

/-- The loop of `UART_putString` over the elements of a 4-byte array from
index `i` on: send bytes until a zero byte.  Running off the end of the array
is recorded as an out-of-bounds load.  The source goes on from there, sending
the bytes that follow the array in memory up to the next zero byte; the model
stops at the recorded load, which is the case of a zero byte right behind the
array. -/
def UART_putString_from (i : Nat) : List Nat → State → State
  | [], s => { s with mem := s.mem ++ [MemEv.load i] }
  | b :: rest, s => if b = 0 then s else UART_putString_from (i + 1) rest (UART_putChar b s)

/-- Routine `UART_putString(arr)` for a local array `arr`. -/
def UART_putString (arr : List Nat) (s : State) : State := UART_putString_from 0 arr s

/-- The loop of `UART_putString` once `buf` points behind the 4-byte array,
at index `i`.  The list holds the bytes that follow the array in memory;
where the list ends, a zero byte follows.  Each byte is loaded and, unless it
is zero, sent. -/
def UART_putString_past (i : Nat) : List Nat → State → State
  | [], s => { s with mem := s.mem ++ [MemEv.load i] }
  | b :: rest, s =>
    if b % 256 = 0 then { s with mem := s.mem ++ [MemEv.load i] }
    else
      UART_putString_past (i + 1) rest
        (UART_putChar (b % 256) { s with mem := s.mem ++ [MemEv.load i] })

/-- The loop of `UART_putString` when the bytes `spill` follow the array in
memory: line by line as `UART_putString_from`, then on into `spill`.  With
`spill = []` this is `UART_putString_from`. -/
def UART_putString_from_in (spill : List Nat) (i : Nat) : List Nat → State → State
  | [], s => UART_putString_past i spill s
  | b :: rest, s =>
    if b = 0 then s else UART_putString_from_in spill (i + 1) rest (UART_putChar b s)

/-- Routine `UART_putString(arr)` when the bytes `spill` follow `arr` in
memory. -/
def UART_putString_in (spill : List Nat) (arr : List Nat) (s : State) : State :=
  UART_putString_from_in spill 0 arr s

/-! ## PWM and timer -/

/-- Routine `PWM_init`. -/
def PWM_init (s : State) : State :=
  let s := wr .DDRE (s.DDRE &&& 0x00) s
  let s := wr .TCCR3A TCCRA_MASK s
  let s := wr .TCCR3B TCCRB_MASK s
  wr .ICR3 39999 s

/-- Routine `PWM_start`. -/
def PWM_start (s : State) : State := wr .DDRE (s.DDRE ||| 0xFF) s

/-- Routine `PWM_stop`. -/
def PWM_stop (s : State) : State := wr .DDRE (s.DDRE &&& 0x00) s

/-- Routine `setupTimer`; `F_CPU` is the build-time clock constant. -/
def setupTimer (F_CPU : Nat) (s : State) : State :=
  let s := wr .TCCR5A 0x00 s
  let s := wr .TCCR5B ((1 <<< WGM52) ||| (1 <<< CS50) ||| (1 <<< CS52)) s
  let s := wr .TIMSK5 (s.TIMSK5 ||| (1 <<< OCIE5A)) s
  wr .OCR5A (toU16 ((F_CPU : Int) / 1024 - 1)) s

/-- Routine `setPacketRate(_packet_per_sec)`. -/
def setPacketRate (F_CPU : Nat) (_packet_per_sec : Nat) (s : State) : State :=
  if _packet_per_sec = 0 then s
  else wr .OCR5A (toU16 ((F_CPU : Int) / 1024 / (_packet_per_sec : Int) - 1)) s

/-- The compare value `setPacketRate(r)` stores in `OCR5A` for `r` other
than 0. -/
def compareOf (F_CPU r : Nat) : Nat := toU16 ((F_CPU : Int) / 1024 / (r : Int) - 1)

/-- Routine `setDirection(dir)`. -/
def setDirection (dir : Nat) (s : State) : State :=
  if dir = CWISE then
    let s := wr .PORTH (s.PORTH &&& cnot (1 <<< PH6)) s
    wr .PORTH (s.PORTH ||| (1 <<< PH5)) s
  else if dir = CCWISE then
    let s := wr .PORTH (s.PORTH &&& cnot (1 <<< PH5)) s
    wr .PORTH (s.PORTH ||| (1 <<< PH6)) s
  else s

/-- The value of `(speed-MIN_SPEED)*ONE_PERCENT_STEP` once the preprocessor
has replaced `ONE_PERCENT_STEP` by its body `OCR_TOP_VALUE/100`: the tokens
read `(speed-100)*39998/100`, and `*` and `/` associate to the left.  C
division truncates towards zero. -/
def dutyExpr (speed : Nat) : Int :=
  Int.tdiv (((speed : Int) - (MIN_SPEED : Int)) * OCR_TOP_VALUE) 100

/-- The 16-bit value that `setSpeed(speed)` stores. -/
def dutyOf (speed : Nat) : Nat := toU16 (dutyExpr speed)

/-- Routine `setSpeed(speed)`. -/
def setSpeed (speed : Nat) (s : State) : State := wr .OCR3A (dutyOf speed) s

/-- A `for` loop whose body runs `n` times. -/
def repeatBody (body : State → State) : Nat → State → State
  | 0, s => s
  | n + 1, s => repeatBody body n (body s)

/-- Routine `set_speed_smoothly(speed)`. -/
def set_speed_smoothly (speed : Nat) (s : State) : State :=
  let s := cli s
  let delay : Nat := 1500
  let num_step : Nat := 20
  let delay_per_step : Nat := (delay / num_step) % 256
  let new_ocr : Nat := dutyOf speed
  let s :=
    if new_ocr > s.OCR3A then
      let step := (toU16 ((new_ocr : Int) - (s.OCR3A : Int))) / num_step
      -- for(uint8_t i=1 ; i<=num_step ; i++)
      repeatBody (fun t => _delay_ms delay_per_step (wr .OCR3A (t.OCR3A + step) t)) num_step s
    else if new_ocr < s.OCR3A then
      let step := (toU16 ((s.OCR3A : Int) - (new_ocr : Int))) / num_step
      -- for(uint8_t i=0 ; i<num_step ; i++)
      repeatBody
        (fun t => _delay_ms delay_per_step (wr .OCR3A (toU16 ((t.OCR3A : Int) - (step : Int))) t))
        num_step s
    else s
  sei (setSpeed speed s)

/-! ## `main` -/

/-- The array `hshake` (and the initial contents of `tmp`). -/
def hshake : List Nat := [OF, OF + MIN_SPEED + 1, OF + 2, 10]

/-- Session start, from `setupTimer()` to `sei()`. -/
def sessionStart (F_CPU : Nat) (s : State) : State :=
  let s := setupTimer F_CPU s
  let s := PWM_init s
  let s := { s with _timestamp := 1, _speed := MIN_SPEED, _direction := CWISE, _packet_rate := 1 }
  let s := setSpeed s._speed s
  let s := setDirection s._direction s
  let s := setPacketRate F_CPU s._packet_rate s
  let s := PWM_start s
  sei s

/-- The handshake after the probe: read the reply, select the mode,
acknowledge and start the session, or `break`. -/
def handshakeReply (F_CPU : Nat) (s : State) : State :=
  match UART_getString s with
  | (s, none) => { s with pc := .blocked }
  | (s, some _) =>
    if s.buf.get 0 = hshake.getD 0 0 ∧ s.buf.get 1 = hshake.getD 1 0 then
      let tmp : List Nat := [OF, OF + MIN_SPEED + 1, OF + 2, 10]
      let (s, tmp) :=
        if s.buf.get 2 = hshake.getD 2 0 then
          ({ s with smooth := false, running := true }, tmp)
        else if s.buf.get 2 = 108 then  -- 'l'
          ({ s with smooth := true, running := true }, tmp.set 2 108)
        else (s, tmp)
      let s := _delay_ms 100 s
      let s := UART_putString tmp s
      { sessionStart F_CPU s with pc := .loopHead }
    else { s with pc := .halted }

/-- The handshake after the probe on a build that places the locals `behind`
after `buf` and the bytes `spill` after `tmp`; line by line as
`handshakeReply`. -/
def handshakeReply_in (behind : List Local) (spill : List Nat) (F_CPU : Nat) (s : State) :
    State :=
  match UART_getString_in behind s with
  | (s, none) => { s with pc := .blocked }
  | (s, some _) =>
    if s.buf.get 0 = hshake.getD 0 0 ∧ s.buf.get 1 = hshake.getD 1 0 then
      let tmp : List Nat := [OF, OF + MIN_SPEED + 1, OF + 2, 10]
      let (s, tmp) :=
        if s.buf.get 2 = hshake.getD 2 0 then
          ({ s with smooth := false, running := true }, tmp)
        else if s.buf.get 2 = 108 then  -- 'l'
          ({ s with smooth := true, running := true }, tmp.set 2 108)
        else (s, tmp)
      let s := _delay_ms 100 s
      let s := UART_putString_in spill tmp s
      { sessionStart F_CPU s with pc := .loopHead }
    else { s with pc := .halted }

/-- The successor of the sequence counter: `_timestamp<255?_timestamp+1:1`. -/
def nextTimestamp (t : Nat) : Nat := if t < 255 then t + 1 else 1

/-- The body of `if( timer_occurred )`. -/
def telemetryEmitter (s : State) : State :=
  let s := UART_putChar s._timestamp s
  let s := UART_putChar s._speed s
  let s := UART_putChar s._direction s
  let s := UART_putChar 10 s
  let s := { s with _timestamp := nextTimestamp s._timestamp }
  { s with timer_occurred := false }

/-- The first `if` of the `else` branch: the telemetry rate. -/
def applyRate (F_CPU : Nat) (s : State) : State :=
  if s._packet_rate ≠ s.buf.get 0 then
    let s := { s with _packet_rate := s.buf.get 0 }
    setPacketRate F_CPU s._packet_rate s
  else s

/-- The second `if` of the `else` branch: the speed. -/
def applySpeed (s : State) : State :=
  if s._speed ≠ s.buf.get 1 then
    let s := { s with _speed := s.buf.get 1 }
    setSpeed s._speed s
  else s

/-- The third `if` of the `else` branch: the direction, between two ramps
when `smooth` is set. -/
def applyDirection (s : State) : State :=
  if s._direction ≠ s.buf.get 2 then
    let s := { s with _direction := s.buf.get 2 }
    let s := if s.smooth then set_speed_smoothly (MIN_SPEED + 5) s else s
    let s := setDirection s._direction s
    if s.smooth then set_speed_smoothly s._speed s else s
  else s

/-- The `else` branch of the command processor: apply, in this order, the
fields that differ from the current values. -/
def applyFields (F_CPU : Nat) (s : State) : State :=
  applyDirection (applySpeed (applyRate F_CPU s))

/-- The command processor on the message now in `buf`, up to and including
`msg_rcv = false`. -/
def commandProcessor (F_CPU : Nat) (s : State) : State :=
  let s :=
    if s.buf.get 0 = CF then
      let s := cli s
      { s with running := false }
    else applyFields F_CPU s
  { s with msg_rcv := false }

/-- The body of `if( msg_rcv )`. -/
def receiveCommand (F_CPU : Nat) (s : State) : State :=
  match UART_getString s with
  | (s, none) => { s with pc := .blocked }
  | (s, some _) => { commandProcessor F_CPU s with pc := .loopHead }

/-- The body of `if( msg_rcv )` on a build that places the locals `behind`
after `buf`. -/
def receiveCommand_in (behind : List Local) (F_CPU : Nat) (s : State) : State :=
  match UART_getString_in behind s with
  | (s, none) => { s with pc := .blocked }
  | (s, some _) => { commandProcessor F_CPU s with pc := .loopHead }

/-- The code after the operating loop, from `PWM_stop()` to
`_delay_ms(1000)`. -/
def drainSession (F_CPU : Nat) (s : State) : State :=
  let s := PWM_stop s
  let s := { s with _timestamp := 1 }
  let s := { s with _packet_rate := 1 }
  let s := { s with _speed := MIN_SPEED }
  let s := setPacketRate F_CPU s._packet_rate s
  let s := setSpeed s._speed s
  let s := { s with buf := { b0 := 0, b1 := 0, b2 := 0, b3 := 0 } }
  _delay_ms 1000 s

/-- One step of `main` from the current control point to the next. -/
def progStep (F_CPU : Nat) (s : State) : State :=
  match s.pc with
  | .hsSend => { UART_putString hshake s with pc := .hsRecv }
  | .hsRecv => handshakeReply F_CPU s
  | .loopHead => if s.running then { s with pc := .loopTimer } else { s with pc := .drain }
  | .loopTimer =>
    if s.timer_occurred then { telemetryEmitter s with pc := .loopMsg }
    else { s with pc := .loopMsg }
  | .loopMsg =>
    if s.msg_rcv then receiveCommand F_CPU s else { s with pc := .loopHead }
  | .drain => { drainSession F_CPU s with pc := .hsSend }
  | .halted => s
  | .blocked => s

/-- Handler `ISR(TIMER5_COMPA_vect)`: runs only while interrupts are enabled globally
and the compare-match interrupt is enabled in `TIMSK5`. -/
def timerISR (s : State) : State :=
  if s.ien = true ∧ s.TIMSK5 &&& (1 <<< OCIE5A) ≠ 0 then { s with timer_occurred := true }
  else s

/-- Handler `ISR(USART0_RX_vect)`: runs only while interrupts are enabled globally
and an unread byte from the host is waiting (`UART_init` sets `RXCIE0` once
and nothing clears it). -/
def rxISR (s : State) : State :=
  if s.ien = true ∧ s.rx ≠ [] then { s with msg_rcv := true } else s

/-- What happens next: `main` advances to its next control point, or one of
the two interrupt handlers runs. -/
inductive Event
  | prog
  | timer
  | rxc
  deriving DecidableEq, Repr

/-- One transition of the firmware. -/
def step (F_CPU : Nat) (e : Event) (s : State) : State :=
  match e with
  | .prog => progStep F_CPU s
  | .timer => timerISR s
  | .rxc => rxISR s

/-- One step of `main` on a build that places the locals `behind` after
`buf` and in which the bytes `spill` follow the array handed to
`UART_putString`.  Only the three steps that call the string routines
differ from `progStep`. -/
def progStep_in (behind : List Local) (spill : List Nat) (F_CPU : Nat) (s : State) : State :=
  match s.pc with
  | .hsSend => { UART_putString_in spill hshake s with pc := .hsRecv }
  | .hsRecv => handshakeReply_in behind spill F_CPU s
  | .loopMsg =>
    if s.msg_rcv then receiveCommand_in behind F_CPU s else { s with pc := .loopHead }
  | _ => progStep F_CPU s

/-- One transition of the firmware on such a build.  With `behind = []` and
`spill = []` this is `step`. -/
def step_in (behind : List Local) (spill : List Nat) (F_CPU : Nat) (e : Event) (s : State) :
    State :=
  match e with
  | .prog => progStep_in behind spill F_CPU s
  | .timer => timerISR s
  | .rxc => rxISR s

/-- A run: the events of a list, in order. -/
def run (F_CPU : Nat) : List Event → State → State
  | [], s => s
  | e :: es, s => run F_CPU es (step F_CPU e s)

/-- The state on reaching `while(true)` for the first time, after `cli()`,
`UART_init()` and `_delay_ms(1500)`: registers at their reset value 0,
interrupts disabled, `smooth` and `running` false.  `rx` is everything the
host will send; `buf0` is the uninitialised content of `buf`. -/
def boot (rx : List Nat) (buf0 : Buf4) : State :=
  { pc := .hsSend, DDRE := 0, PORTH := 0, OCR3A := 0, OCR5A := 0, ICR3 := 0,
    TCCR3A := 0, TCCR3B := 0, TCCR5A := 0, TCCR5B := 0, TIMSK5 := 0,
    ien := false, timer_occurred := false, msg_rcv := false, buf := buf0,
    smooth := false, running := false,
    _timestamp := 0, _speed := 0, _direction := 0, _packet_rate := 0,
    rx := rx, out := [IOEv.cli, IOEv.delay_ms 1500], mem := [] }

/-- States the firmware can be in, for some host input and some
interleaving of interrupts. -/
inductive Reachable (F_CPU : Nat) : State → Prop
  | boot (rx : List Nat) (buf0 : Buf4) : Reachable F_CPU (boot rx buf0)
  | step (e : Event) {s : State} : Reachable F_CPU s → Reachable F_CPU (step F_CPU e s)

/-- Active states at an operating-loop control point. -/
def State.inLoop (s : State) : Prop :=
  s.pc = .loopHead ∨ s.pc = .loopTimer ∨ s.pc = .loopMsg

/-- The value `setDirection(dir)` leaves in `PORTH`, as a function of the
value it finds there. -/
def pinsAfter (dir porth : Nat) : Nat :=
  if dir = CWISE then ((porth &&& cnot (1 <<< PH6)) % 2 ^ 8 ||| (1 <<< PH5)) % 2 ^ 8
  else if dir = CCWISE then ((porth &&& cnot (1 <<< PH5)) % 2 ^ 8 ||| (1 <<< PH6)) % 2 ^ 8
  else porth

/-- The direction pins encode `dir`: clockwise is PH5 high and PH6 low,
counterclockwise is PH6 high and PH5 low. -/
def PinsEncode (dir porth : Nat) : Prop :=
  (dir = CWISE → porth.testBit PH5 = true ∧ porth.testBit PH6 = false) ∧
  (dir = CCWISE → porth.testBit PH6 = true ∧ porth.testBit PH5 = false)

/-- A plain-mode session of a 16 MHz device, just started, standing at the
test of `if( msg_rcv )` with the flag set and the bytes `cmd` pending from
the host. -/
def framingState (cmd : List Nat) : State :=
  run 16000000 [.prog, .prog, .rxc, .prog, .prog] (boot ([62, 163, 64, 10] ++ cmd) ⟨0, 0, 0, 0⟩)

/-- Host input for two sessions: a handshake reply, a close command, and a
second handshake reply. -/
def twoSessionInput : List Nat := [62, 163, 64, 10, 60, 1, 1, 10, 62, 163, 64, 10]

/-- A run over two sessions in which the timer interrupt fires once, in the
first session, after the `if( timer_occurred )` test of the loop pass that
then reads the close command.  It ends where the second session enters its
operating loop. -/
def staleTickRun : List Event :=
  [.prog, .prog, .prog, .prog, .rxc, .timer, .prog, .prog, .prog, .prog, .prog]

/-- The count of telemetry packets of the current session after one
transition: reading a handshake reply starts the count afresh, a pass
through the telemetry emitter adds one, and nothing else changes it. -/
def countStep (e : Event) (s : State) (n : Nat) : Nat :=
  if e = .prog ∧ s.pc = .hsRecv then 0
  else if e = .prog ∧ s.pc = .loopTimer ∧ s.timer_occurred = true then n + 1
  else n

/-- The number of telemetry packets sent in the current session at the end
of a run that starts with the count at `n`. -/
def sessionPackets (F_CPU : Nat) : List Event → State → Nat → Nat
  | [], _, n => n
  | e :: es, s, n => sessionPackets F_CPU es (step F_CPU e s) (countStep e s n)

/-! ## Footprints

Projections that blank out the fields a routine may change; two states with
the same image agree on every other field. -/

/-- A state with the fields the hardware routines may change blanked out:
two states with the same `hwCore` differ at most in `OCR3A`, `OCR5A`,
`PORTH`, the interrupt enable bit and the log. -/
def hwCore (s : State) : State :=
  { s with OCR3A := 0, OCR5A := 0, PORTH := 0, ien := false, out := [] }

/-- A state with the receive buffer, the pending input and the
out-of-bounds record blanked out. -/
def rxCore (s : State) : State :=
  { s with buf := ⟨0, 0, 0, 0⟩, rx := [], mem := [] }

/-- A state with the one-byte locals of `main` blanked out: two states with
the same `locCore` differ at most in `smooth`, `running`, `_timestamp`,
`_speed`, `_direction` and `_packet_rate`. -/
def locCore (s : State) : State :=
  { s with smooth := false, running := false, _timestamp := 0, _speed := 0, _direction := 0,
           _packet_rate := 0 }

/-- The log of `t` is the log of `s` followed by entries that all satisfy
`P`. -/
def Extends (P : IOEv → Prop) (s t : State) : Prop :=
  ∃ e, t.out = s.out ++ e ∧ ∀ x ∈ e, P x

/-- An entry that is not a byte sent to the host. -/
def NotTx (x : IOEv) : Prop := ∀ b, x ≠ IOEv.tx b

/-- A device of 16 MHz after `n` steps of `main` with no interrupt, fed the
bytes `input`. -/
def quietRun (n : Nat) (input : List Nat) : State :=
  run 16000000 (List.replicate n Event.prog) (boot input ⟨0, 0, 0, 0⟩)

/-- A smooth-mode session that the host closes, followed by a handshake reply
whose mode byte `'A'` is neither the plain tag nor `'l'`. -/
def smoothThenUnknown : State :=
  run 16000000 [.prog, .prog, .prog, .prog, .rxc, .prog, .prog, .prog, .prog, .prog]
    (boot [62, 163, 108, 10, 60, 1, 1, 10, 62, 163, 65, 10] ⟨0, 0, 0, 0⟩)

/-- The log of `n` passes of an interpolation loop of `set_speed_smoothly`:
pass `k` (counted from 1) stores `value k` in `OCR3A` and then waits the
75 ms of `delay_per_step`. -/
def rampLog (value : Nat → Nat) : Nat → List IOEv
  | 0 => []
  | n + 1 => rampLog value n ++ [IOEv.write .OCR3A (value (n + 1)), IOEv.delay_ms 75]

/-- The stores `setDirection(dir)` makes to `PORTH`, in order, as a function
of the value it finds there. -/
def pinLog (dir porth : Nat) : List IOEv :=
  if dir = CWISE then
    [IOEv.write .PORTH ((porth &&& cnot (1 <<< PH6)) % 2 ^ 8), IOEv.write .PORTH (pinsAfter dir porth)]
  else if dir = CCWISE then
    [IOEv.write .PORTH ((porth &&& cnot (1 <<< PH5)) % 2 ^ 8), IOEv.write .PORTH (pinsAfter dir porth)]
  else []

/-- What the host has asked for in the current session. -/
inductive LastMsg
  /-- The session has started and no message has been processed yet. -/
  | noneYet
  /-- The last message processed was the well-formed frame `a, b, c, '\n'`,
  not a close command. -/
  | frame (a b c : Nat)
  /-- The last message processed was a close command or not a well-formed
  frame (or no session has started). -/
  | other
  deriving DecidableEq, Repr

/-- The triple `t` of rate, speed and direction is what the last message
calls for: the defaults 1, 100, 0xAA when there was none yet, the three
payload bytes of a well-formed frame; nothing is said otherwise. -/
def Agrees (t : Nat × Nat × Nat) : LastMsg → Prop
  | .noneYet => t = (1, MIN_SPEED, CWISE)
  | .frame a b c => t = (a, b, c)
  | .other => True

/-- Session state and hardware agree with each other and with the last
message: rate, speed and direction are those of `last`, `OCR3A` holds the
duty of `_speed`, and the pins encode `_direction` when it is a direction. -/
def Consistent (s : State) (last : LastMsg) : Prop :=
  Agrees (s._packet_rate, s._speed, s._direction) last ∧
  s.OCR3A = dutyOf s._speed ∧ PinsEncode s._direction s.PORTH

/-- The two direction outputs PH5 and PH6 are not both high in the port
value `p`. -/
def NotBoth (p : Nat) : Prop := ¬ (p.testBit PH5 = true ∧ p.testBit PH6 = true)

/-- A log entry that, if it is a store to `PORTH`, stores a value in which
PH5 and PH6 are not both high. -/
def PinWriteOk (x : IOEv) : Prop := ∀ v, x = IOEv.write .PORTH v → NotBoth v

/-- The direction outputs are not both high now, and were not after any
store to `PORTH` so far. -/
def PinsSafe (s : State) : Prop := NotBoth s.PORTH ∧ ∀ x ∈ s.out, PinWriteOk x

/-! ## Arithmetic of the duty mapping -/

theorem toU16_natCast (n : Nat) : toU16 (n : Int) = n % 65536 := by
  unfold toU16
  have h : ((n : Int) % 65536) = ((n % 65536 : Nat) : Int) := by norm_cast
  rw [h, Int.toNat_natCast]

theorem dutyExpr_of_ge (speed : Nat) (h : 100 ≤ speed) :
    dutyExpr speed = (((speed - 100) * 39998 / 100 : Nat) : Int) := by
  unfold dutyExpr
  have h1 : ((speed : Int) - (MIN_SPEED : Int)) = ((speed - 100 : Nat) : Int) := by
    simp only [MIN_SPEED]
    omega
  rw [h1, Int.tdiv_eq_ediv (by positivity) (by norm_num)]
  norm_cast

theorem dutyOf_of_range (speed : Nat) (h1 : 100 ≤ speed) (h2 : speed ≤ 200) :
    dutyOf speed = (speed - 100) * 39998 / 100 := by
  unfold dutyOf
  rw [dutyExpr_of_ge speed h1, toU16_natCast]
  omega

theorem dutyOf_lt (speed : Nat) : dutyOf speed < 65536 := by
  unfold dutyOf toU16
  omega

theorem setSpeed_OCR3A (speed : Nat) (s : State) : (setSpeed speed s).OCR3A = dutyOf speed := by
  have h := dutyOf_lt speed
  simp only [setSpeed, wr, Reg.width]
  omega

/-! ## Frame lemmas: what each routine leaves alone -/

theorem storeBuf_frame (i v : Nat) (s : State) :
    ∃ b m, storeBuf i v s = { s with buf := b, mem := m } := by
  unfold storeBuf
  split_ifs
  · exact ⟨_, s.mem, rfl⟩
  · exact ⟨s.buf, _, rfl⟩

theorem UART_getString_from_frame (l : List Nat) :
    ∀ (i : Nat) (s : State),
      ∃ b r m, (UART_getString_from i s l).1 = { s with buf := b, rx := r, mem := m } := by
  induction l with
  | nil => intro i s; exact ⟨s.buf, [], s.mem, rfl⟩
  | cons d rest ih =>
    intro i s
    obtain ⟨b1, m1, h1⟩ := storeBuf_frame i (d % 256) s
    simp only [UART_getString_from]
    split_ifs
    · rw [h1]; exact ⟨_, _, _, rfl⟩
    · obtain ⟨b2, m2, h2⟩ := storeBuf_frame (i + 1) 0 (storeBuf i (d % 256) s)
      rw [h2, h1]; exact ⟨_, _, _, rfl⟩
    · obtain ⟨b, r, m, h⟩ := ih (i + 1) (storeBuf i (d % 256) s)
      rw [h, h1]; exact ⟨_, _, _, rfl⟩

theorem UART_getString_frame (s : State) :
    ∃ b r m, (UART_getString s).1 = { s with buf := b, rx := r, mem := m } :=
  UART_getString_from_frame s.rx 0 s

theorem repeatBody_frame (body : State → State)
    (hb : ∀ t, ∃ v o, body t = { t with OCR3A := v, out := o }) (n : Nat) :
    ∀ s, ∃ v o, repeatBody body n s = { s with OCR3A := v, out := o } := by
  induction n with
  | zero => intro s; exact ⟨s.OCR3A, s.out, rfl⟩
  | succ n ih =>
    intro s
    obtain ⟨v1, o1, h1⟩ := hb s
    obtain ⟨v, o, h⟩ := ih (body s)
    refine ⟨v, o, ?_⟩
    rw [repeatBody, h, h1]

theorem set_speed_smoothly_frame (speed : Nat) (s : State) :
    ∃ o, set_speed_smoothly speed s = { s with OCR3A := dutyOf speed, ien := true, out := o } := by
  have hd := dutyOf_lt speed
  have e : dutyOf speed % 65536 = dutyOf speed := Nat.mod_eq_of_lt hd
  have hup : ∀ st d, ∀ t : State, ∃ v o,
      _delay_ms d (wr .OCR3A (t.OCR3A + st) t) = { t with OCR3A := v, out := o } :=
    fun st d t => ⟨_, _, rfl⟩
  have hdn : ∀ st d, ∀ t : State, ∃ v o,
      _delay_ms d (wr .OCR3A (toU16 ((t.OCR3A : Int) - (st : Int))) t)
        = { t with OCR3A := v, out := o } :=
    fun st d t => ⟨_, _, rfl⟩
  unfold set_speed_smoothly
  simp only []
  split_ifs
  · obtain ⟨v, o, h⟩ := repeatBody_frame _ (hup _ _) 20 (cli s)
    rw [h]
    simp [setSpeed, wr, sei, cli, Reg.width, e]
  · obtain ⟨v, o, h⟩ := repeatBody_frame _ (hdn _ _) 20 (cli s)
    rw [h]
    simp [setSpeed, wr, sei, cli, Reg.width, e]
  · simp [setSpeed, wr, sei, cli, Reg.width, e]

theorem setDirection_frame (dir : Nat) (s : State) :
    ∃ p o, setDirection dir s = { s with PORTH := p, out := o } := by
  unfold setDirection
  split_ifs
  · exact ⟨_, _, rfl⟩
  · exact ⟨_, _, rfl⟩
  · exact ⟨s.PORTH, s.out, rfl⟩

theorem setPacketRate_frame (F_CPU r : Nat) (s : State) :
    ∃ v o, setPacketRate F_CPU r s = { s with OCR5A := v, out := o } := by
  unfold setPacketRate
  split_ifs
  · exact ⟨s.OCR5A, s.out, rfl⟩
  · exact ⟨_, _, rfl⟩

theorem setSpeed_frame (speed : Nat) (s : State) :
    ∃ o, setSpeed speed s = { s with OCR3A := dutyOf speed, out := o } := by
  have hd := dutyOf_lt speed
  have e : dutyOf speed % 65536 = dutyOf speed := Nat.mod_eq_of_lt hd
  refine ⟨s.out ++ [IOEv.write .OCR3A (dutyOf speed)], ?_⟩
  simp [setSpeed, wr, Reg.width, e]

theorem rxCore_UART_getString (s : State) : rxCore (UART_getString s).1 = rxCore s := by
  obtain ⟨b, r, m, h⟩ := UART_getString_frame s
  rw [h]; rfl

theorem hwCore_setSpeed (speed : Nat) (s : State) : hwCore (setSpeed speed s) = hwCore s := by
  obtain ⟨o, h⟩ := setSpeed_frame speed s
  rw [h]; rfl

theorem hwCore_setDirection (dir : Nat) (s : State) :
    hwCore (setDirection dir s) = hwCore s := by
  obtain ⟨p, o, h⟩ := setDirection_frame dir s
  rw [h]; rfl

theorem hwCore_setPacketRate (F_CPU r : Nat) (s : State) :
    hwCore (setPacketRate F_CPU r s) = hwCore s := by
  obtain ⟨v, o, h⟩ := setPacketRate_frame F_CPU r s
  rw [h]; rfl

theorem hwCore_set_speed_smoothly (speed : Nat) (s : State) :
    hwCore (set_speed_smoothly speed s) = hwCore s := by
  obtain ⟨o, h⟩ := set_speed_smoothly_frame speed s
  rw [h]; rfl

theorem set_speed_smoothly_OCR3A (speed : Nat) (s : State) :
    (set_speed_smoothly speed s).OCR3A = dutyOf speed := by
  obtain ⟨o, h⟩ := set_speed_smoothly_frame speed s
  rw [h]

theorem hwCore_applyRate (F_CPU : Nat) (s : State) :
    hwCore (applyRate F_CPU s) = hwCore { s with _packet_rate := s.buf.get 0 } := by
  unfold applyRate
  split_ifs with h
  · exact hwCore_setPacketRate _ _ _
  · rw [← not_not.mp h]

theorem hwCore_applySpeed (s : State) :
    hwCore (applySpeed s) = hwCore { s with _speed := s.buf.get 1 } := by
  unfold applySpeed
  split_ifs with h
  · exact hwCore_setSpeed _ _
  · rw [← not_not.mp h]

theorem hwCore_applyDirection (s : State) :
    hwCore (applyDirection s) = hwCore { s with _direction := s.buf.get 2 } := by
  unfold applyDirection
  split_ifs with h
  · simp only []
    split_ifs <;>
      simp only [hwCore_set_speed_smoothly, hwCore_setDirection]
  · rw [← not_not.mp h]

theorem hwCore_applyFields (F_CPU : Nat) (s : State) :
    hwCore (applyFields F_CPU s) =
      hwCore { s with _packet_rate := s.buf.get 0, _speed := s.buf.get 1,
                      _direction := s.buf.get 2 } := by
  have h1 := hwCore_applyRate F_CPU s
  have h2 := hwCore_applySpeed (applyRate F_CPU s)
  have h3 := hwCore_applyDirection (applySpeed (applyRate F_CPU s))
  have b1 : (applyRate F_CPU s).buf = s.buf := (congrArg State.buf h1 :)
  have b2 : (applySpeed (applyRate F_CPU s)).buf = s.buf :=
    Eq.trans (congrArg State.buf h2 :) b1
  have c1 : (applyRate F_CPU s).buf.get 1 = s.buf.get 1 := by rw [b1]
  have c2 : (applySpeed (applyRate F_CPU s)).buf.get 2 = s.buf.get 2 := by rw [b2]
  rw [c1] at h2
  rw [c2] at h3
  have e1 : ∀ (x y : State) (v : Nat), hwCore x = hwCore y →
      hwCore { x with _speed := v } = hwCore { y with _speed := v } := by
    intro x y v h
    exact congrArg (fun t : State => { t with _speed := v }) h
  have e2 : ∀ (x y : State) (v : Nat), hwCore x = hwCore y →
      hwCore { x with _direction := v } = hwCore { y with _direction := v } := by
    intro x y v h
    exact congrArg (fun t : State => { t with _direction := v }) h
  unfold applyFields
  exact h3.trans ((e2 _ _ _ h2).trans (e2 _ _ _ (e1 _ _ _ h1)))

theorem sessionStart_frame (F_CPU : Nat) (s : State) :
    (sessionStart F_CPU s)._timestamp = 1 ∧ (sessionStart F_CPU s)._packet_rate = 1 ∧
    (sessionStart F_CPU s)._speed = MIN_SPEED ∧ (sessionStart F_CPU s)._direction = CWISE ∧
    (sessionStart F_CPU s).ien = true ∧
    (sessionStart F_CPU s).running = s.running ∧ (sessionStart F_CPU s).smooth = s.smooth ∧
    (sessionStart F_CPU s).timer_occurred = s.timer_occurred ∧
    (sessionStart F_CPU s).msg_rcv = s.msg_rcv := by
  simp [sessionStart, sei, PWM_start, setPacketRate, setDirection, setSpeed, PWM_init,
    setupTimer, wr]

theorem receiveCommand_cases (F_CPU : Nat) (s : State) :
    (receiveCommand F_CPU s).pc = .blocked ∨
    ((UART_getString s).2 ≠ none ∧
      receiveCommand F_CPU s = { commandProcessor F_CPU (UART_getString s).1 with pc := .loopHead }) := by
  unfold receiveCommand
  rcases hg : UART_getString s with ⟨s1, _ | n⟩
  · exact Or.inl rfl
  · exact Or.inr ⟨by simp, rfl⟩

theorem handshakeReply_cases (F_CPU : Nat) (s : State) :
    (handshakeReply F_CPU s).pc = .blocked ∨ (handshakeReply F_CPU s).pc = .halted ∨
    ∃ t, handshakeReply F_CPU s = { sessionStart F_CPU t with pc := .loopHead } := by
  unfold handshakeReply
  rcases hg : UART_getString s with ⟨s1, _ | n⟩
  · exact Or.inl rfl
  · simp only []
    split_ifs
    · exact Or.inr (Or.inr ⟨_, rfl⟩)
    · exact Or.inr (Or.inr ⟨_, rfl⟩)
    · exact Or.inr (Or.inr ⟨_, rfl⟩)
    · exact Or.inr (Or.inl rfl)

theorem storeBuf_get_of_lt (i j v : Nat) (s : State) (h : j < i) :
    (storeBuf i v s).buf.get j = s.buf.get j := by
  unfold storeBuf
  split_ifs with hi
  · rcases i with _ | _ | _ | _ | i
    · omega
    · rcases j with _ | j
      · rfl
      · omega
    · rcases j with _ | _ | j
      · rfl
      · rfl
      · omega
    · rcases j with _ | _ | _ | j
      · rfl
      · rfl
      · rfl
      · omega
    · omega
  · rfl

/-- Routine `UART_getString`, once it stores at index `i`, never goes back to an
index below `i`. -/
theorem UART_getString_from_keeps (l : List Nat) :
    ∀ (i : Nat) (s : State) (j : Nat), j < i →
      (UART_getString_from i s l).1.buf.get j = s.buf.get j := by
  induction l with
  | nil => intro i s j _; rfl
  | cons d rest ih =>
    intro i s j hj
    have h1 := storeBuf_get_of_lt i j (d % 256) s hj
    simp only [UART_getString_from]
    split_ifs
    · exact h1
    · exact (storeBuf_get_of_lt (i + 1) j 0 _ (by omega)).trans h1
    · exact (ih (i + 1) _ j (by omega)).trans h1

theorem toU16_rate (F_CPU r : Nat) (hlo : r ≤ F_CPU / 1024) (hr : 1 ≤ r)
    (hhi : F_CPU / 1024 / r ≤ 65536) :
    toU16 ((F_CPU : Int) / 1024 / (r : Int) - 1) = F_CPU / 1024 / r - 1 := by
  have hq : 1 ≤ F_CPU / 1024 / r := (Nat.le_div_iff_mul_le (by omega)).2 (by simpa using hlo)
  have e : ((F_CPU : Int) / 1024 / (r : Int) - 1) = ((F_CPU / 1024 / r - 1 : Nat) : Int) := by
    rw [Nat.cast_sub hq]
    norm_cast
  rw [e, toU16_natCast]
  omega

/-! ## Direction pins -/

theorem setDirection_PORTH (dir : Nat) (s : State) :
    (setDirection dir s).PORTH = pinsAfter dir s.PORTH := by
  unfold setDirection pinsAfter
  split_ifs <;> rfl

theorem pinsAfter_encodes (dir p : Nat) (h : dir = CWISE ∨ dir = CCWISE) :
    PinsEncode dir (pinsAfter dir p) := by
  have a5 : (1 <<< PH5 : Nat).testBit 5 = true := by decide
  have a6 : (1 <<< PH5 : Nat).testBit 6 = false := by decide
  have b5 : (1 <<< PH6 : Nat).testBit 5 = false := by decide
  have b6 : (1 <<< PH6 : Nat).testBit 6 = true := by decide
  have c5 : (cnot (1 <<< PH5)).testBit 5 = false := by decide
  have c6 : (cnot (1 <<< PH6)).testBit 6 = false := by decide
  rcases h with h | h
  · subst h
    refine ⟨fun _ => ⟨?_, ?_⟩, fun hc => absurd hc (by decide)⟩
    · simp only [pinsAfter, if_true, Nat.testBit_mod_two_pow, Nat.testBit_or, Nat.testBit_and,
        a5, PH5]
      simp
    · simp only [pinsAfter, if_true, Nat.testBit_mod_two_pow, Nat.testBit_or, Nat.testBit_and,
        a6, c6, PH6]
      simp
  · subst h
    have hne : ¬ (CCWISE = CWISE) := by decide
    refine ⟨fun hc => absurd hc (by decide), fun _ => ⟨?_, ?_⟩⟩
    · simp only [pinsAfter, hne, if_false, if_true, Nat.testBit_mod_two_pow, Nat.testBit_or,
        Nat.testBit_and, b6, PH6]
      simp
    · simp only [pinsAfter, hne, if_false, if_true, Nat.testBit_mod_two_pow, Nat.testBit_or,
        Nat.testBit_and, b5, c5, PH5]
      simp

/-! ## What the command processor does to each field -/

theorem set_speed_smoothly_proj (speed : Nat) (s : State) :
    (set_speed_smoothly speed s).PORTH = s.PORTH ∧
    (set_speed_smoothly speed s).OCR5A = s.OCR5A ∧
    (set_speed_smoothly speed s).smooth = s.smooth ∧
    (set_speed_smoothly speed s)._speed = s._speed ∧
    (set_speed_smoothly speed s)._direction = s._direction := by
  obtain ⟨o, h⟩ := set_speed_smoothly_frame speed s
  rw [h]
  exact ⟨rfl, rfl, rfl, rfl, rfl⟩

theorem setDirection_proj (dir : Nat) (s : State) :
    (setDirection dir s).OCR3A = s.OCR3A ∧
    (setDirection dir s).OCR5A = s.OCR5A ∧
    (setDirection dir s).smooth = s.smooth ∧
    (setDirection dir s)._speed = s._speed ∧
    (setDirection dir s)._direction = s._direction := by
  obtain ⟨p, o, h⟩ := setDirection_frame dir s
  rw [h]
  exact ⟨rfl, rfl, rfl, rfl, rfl⟩

theorem applyRate_proj (F_CPU : Nat) (s : State) :
    (applyRate F_CPU s).OCR3A = s.OCR3A ∧ (applyRate F_CPU s).PORTH = s.PORTH ∧
    (applyRate F_CPU s)._speed = s._speed ∧ (applyRate F_CPU s)._direction = s._direction ∧
    (applyRate F_CPU s).smooth = s.smooth ∧ (applyRate F_CPU s).buf = s.buf := by
  unfold applyRate
  split_ifs
  · obtain ⟨v, o, h⟩ := setPacketRate_frame F_CPU (s.buf.get 0)
      { s with _packet_rate := s.buf.get 0 }
    simp only []
    rw [h]
    exact ⟨rfl, rfl, rfl, rfl, rfl, rfl⟩
  · exact ⟨rfl, rfl, rfl, rfl, rfl, rfl⟩

theorem applySpeed_proj (s : State) :
    (applySpeed s).OCR3A = (if s._speed ≠ s.buf.get 1 then dutyOf (s.buf.get 1) else s.OCR3A) ∧
    (applySpeed s).PORTH = s.PORTH ∧ (applySpeed s).OCR5A = s.OCR5A ∧
    (applySpeed s)._speed = s.buf.get 1 ∧ (applySpeed s)._direction = s._direction ∧
    (applySpeed s).smooth = s.smooth ∧ (applySpeed s).buf = s.buf := by
  unfold applySpeed
  split_ifs with h
  · obtain ⟨o, hv⟩ := setSpeed_frame (s.buf.get 1) { s with _speed := s.buf.get 1 }
    simp only []
    rw [hv]
    exact ⟨rfl, rfl, rfl, rfl, rfl, rfl, rfl⟩
  · exact ⟨rfl, rfl, rfl, not_not.mp h, rfl, rfl, rfl⟩

theorem setDirection_smooth (dir : Nat) (s : State) :
    (setDirection dir s).smooth = s.smooth := (setDirection_proj dir s).2.2.1

theorem setDirection_speed (dir : Nat) (s : State) :
    (setDirection dir s)._speed = s._speed := (setDirection_proj dir s).2.2.2.1

theorem setDirection_direction (dir : Nat) (s : State) :
    (setDirection dir s)._direction = s._direction := (setDirection_proj dir s).2.2.2.2

theorem set_speed_smoothly_smooth (speed : Nat) (s : State) :
    (set_speed_smoothly speed s).smooth = s.smooth := (set_speed_smoothly_proj speed s).2.2.1

theorem set_speed_smoothly_speed (speed : Nat) (s : State) :
    (set_speed_smoothly speed s)._speed = s._speed := (set_speed_smoothly_proj speed s).2.2.2.1

theorem set_speed_smoothly_direction (speed : Nat) (s : State) :
    (set_speed_smoothly speed s)._direction = s._direction :=
  (set_speed_smoothly_proj speed s).2.2.2.2

/-- The direction branch, when taken, spelled out for each mode. -/
theorem applyDirection_changed (s : State) (h : s._direction ≠ s.buf.get 2) :
    applyDirection s =
      if s.smooth = true then
        set_speed_smoothly s._speed (setDirection (s.buf.get 2)
          (set_speed_smoothly (MIN_SPEED + 5) { s with _direction := s.buf.get 2 }))
      else setDirection (s.buf.get 2) { s with _direction := s.buf.get 2 } := by
  unfold applyDirection
  cases hs : s.smooth <;>
    simp [h, hs, setDirection_smooth, set_speed_smoothly_smooth, setDirection_speed,
      set_speed_smoothly_speed, setDirection_direction, set_speed_smoothly_direction]

theorem applyDirection_proj (s : State) (h : s._direction ≠ s.buf.get 2) :
    (applyDirection s).PORTH = pinsAfter (s.buf.get 2) s.PORTH ∧
    (applyDirection s).OCR3A = (if s.smooth = true then dutyOf s._speed else s.OCR3A) ∧
    (applyDirection s).OCR5A = s.OCR5A := by
  rw [applyDirection_changed s h]
  split_ifs
  · refine ⟨?_, set_speed_smoothly_OCR3A _ _, ?_⟩
    · rw [(set_speed_smoothly_proj _ _).1, setDirection_PORTH, (set_speed_smoothly_proj _ _).1]
    · rw [(set_speed_smoothly_proj _ _).2.1, (setDirection_proj _ _).2.1,
        (set_speed_smoothly_proj _ _).2.1]
  · exact ⟨setDirection_PORTH _ _, (setDirection_proj _ _).1, (setDirection_proj _ _).2.1⟩

theorem applyDirection_same (s : State) (h : s._direction = s.buf.get 2) :
    applyDirection s = s := by
  unfold applyDirection
  simp [h]

theorem applyFields_session (F_CPU : Nat) (s : State) :
    (applyFields F_CPU s)._packet_rate = s.buf.get 0 ∧
    (applyFields F_CPU s)._speed = s.buf.get 1 ∧
    (applyFields F_CPU s)._direction = s.buf.get 2 := by
  have h := hwCore_applyFields F_CPU s
  exact ⟨(congrArg State._packet_rate h :), (congrArg State._speed h :),
    (congrArg State._direction h :)⟩

/-- After the `else` branch the duty register and the direction pins
reflect the message, provided they reflected the session state before. -/
theorem applyFields_hardware (F_CPU : Nat) (s : State)
    (hd : s.buf.get 2 = CWISE ∨ s.buf.get 2 = CCWISE)
    (hduty : s.OCR3A = dutyOf s._speed) (hpins : PinsEncode s._direction s.PORTH) :
    (applyFields F_CPU s).OCR3A = dutyOf (s.buf.get 1) ∧
    PinsEncode (s.buf.get 2) (applyFields F_CPU s).PORTH := by
  obtain ⟨r1, r2, r3, r4, r5, r6⟩ := applyRate_proj F_CPU s
  obtain ⟨p1, p2, _, p4, p5, p6, p7⟩ := applySpeed_proj (applyRate F_CPU s)
  rw [r6] at p1 p4
  rw [r3, r1] at p1
  rw [r2] at p2
  rw [r4] at p5
  rw [r5] at p6
  rw [r6] at p7
  have hO : (applySpeed (applyRate F_CPU s)).OCR3A = dutyOf (s.buf.get 1) := by
    rw [p1]
    split_ifs with hne
    · rfl
    · rw [hduty, not_not.mp hne]
  unfold applyFields
  by_cases hdir : s._direction = s.buf.get 2
  · rw [applyDirection_same _ (by rw [p5, p7]; exact hdir), hO, p2]
    exact ⟨rfl, hdir ▸ hpins⟩
  · obtain ⟨q1, q2, _⟩ := applyDirection_proj (applySpeed (applyRate F_CPU s))
      (by rw [p5, p7]; exact hdir)
    rw [q1, q2, p7, p2, p4, hO]
    refine ⟨by split_ifs <;> rfl, pinsAfter_encodes _ _ hd⟩

theorem commandProcessor_rate (F_CPU : Nat) (s : State) :
    (commandProcessor F_CPU s)._packet_rate
      = if s.buf.get 0 = CF then s._packet_rate else s.buf.get 0 := by
  unfold commandProcessor
  split_ifs
  · rfl
  · exact (applyFields_session F_CPU s).1

/-! ## `_packet_rate` is never the close marker inside a session -/

theorem rate_ne_CF_step (F_CPU : Nat) (e : Event) (s : State)
    (h : s.inLoop → s._packet_rate ≠ CF) :
    (step F_CPU e s).inLoop → (step F_CPU e s)._packet_rate ≠ CF := by
  unfold State.inLoop at h ⊢
  cases e with
  | timer =>
    simp only [step, timerISR]
    split_ifs <;> simpa using h
  | rxc =>
    simp only [step, rxISR]
    split_ifs <;> simpa using h
  | prog =>
    rcases hpc : s.pc
    · simp [step, progStep, hpc]
    · simp only [step, progStep, hpc]
      rcases handshakeReply_cases F_CPU s with hb | hb | ⟨t, ht⟩
      · simp [hb]
      · simp [hb]
      · rw [ht]
        simp [(sessionStart_frame F_CPU t).2.1]
    · have h' := h (by simp [hpc])
      simp only [step, progStep, hpc]
      split_ifs <;> simp [h']
    · have h' := h (by simp [hpc])
      simp only [step, progStep, hpc]
      split_ifs <;> simp [telemetryEmitter, UART_putChar, h']
    · simp only [step, progStep, hpc]
      have h' := h (by simp [hpc])
      split_ifs with hm
      · rcases receiveCommand_cases F_CPU s with hb | ⟨_, hb⟩
        · simp [hb]
        · rw [hb]
          have hr : (UART_getString s).1._packet_rate = s._packet_rate :=
            (congrArg State._packet_rate (rxCore_UART_getString s) :)
          intro _
          show (commandProcessor F_CPU (UART_getString s).1)._packet_rate ≠ CF
          rw [commandProcessor_rate]
          split_ifs with hc
          · rw [hr]; exact h'
          · exact hc
      · simp [h']
    · simp [step, progStep, hpc]
    · simp [step, progStep, hpc]
    · simp [step, progStep, hpc]

theorem rate_ne_CF_of_reachable (F_CPU : Nat) (s : State) (hr : Reachable F_CPU s) :
    s.inLoop → s._packet_rate ≠ CF := by
  induction hr with
  | boot rx buf0 => intro hl; simp [State.inLoop, boot] at hl
  | step e _ ih => exact rate_ne_CF_step F_CPU e _ ih

theorem reachable_run (F_CPU : Nat) (evs : List Event) :
    ∀ s, Reachable F_CPU s → Reachable F_CPU (run F_CPU evs s) := by
  induction evs with
  | nil => intro s h; exact h
  | cons e es ih => intro s h; exact ih _ (Reachable.step e h)

theorem setPacketRate_OCR5A (F_CPU r : Nat) (s : State) (hr : 1 ≤ r)
    (hlo : r ≤ F_CPU / 1024) (hhi : F_CPU / 1024 / r ≤ 65536) :
    (setPacketRate F_CPU r s).OCR5A = F_CPU / 1024 / r - 1 := by
  have hr0 : r ≠ 0 := by omega
  simp only [setPacketRate, hr0, if_false, wr, Reg.width, toU16_rate F_CPU r hlo hr hhi]
  omega

theorem receiveCommand_of (F_CPU : Nat) (s g : State) (n : Nat)
    (hg : UART_getString s = (g, some n)) :
    receiveCommand F_CPU s = { commandProcessor F_CPU g with pc := .loopHead } := by
  unfold receiveCommand
  rw [hg]

theorem step_loopMsg_recv (F_CPU : Nat) (s g : State) (n : Nat)
    (hpc : s.pc = .loopMsg) (hm : s.msg_rcv = true) (hg : UART_getString s = (g, some n)) :
    step F_CPU .prog s = { commandProcessor F_CPU g with pc := .loopHead } := by
  simp only [step, progStep, hpc, hm, if_true]
  exact receiveCommand_of F_CPU s g n hg

theorem commandProcessor_of_ne (F_CPU : Nat) (s : State) (h : s.buf.get 0 ≠ CF) :
    commandProcessor F_CPU s = { applyFields F_CPU s with msg_rcv := false } := by
  unfold commandProcessor
  simp [h]

theorem commandProcessor_of_close (F_CPU : Nat) (s : State) (h : s.buf.get 0 = CF) :
    commandProcessor F_CPU s = { cli s with running := false, msg_rcv := false } := by
  unfold commandProcessor
  simp [h]

theorem applyRate_same (F_CPU : Nat) (s : State) (h : s._packet_rate = s.buf.get 0) :
    applyRate F_CPU s = s := by
  unfold applyRate
  simp [h]

theorem applySpeed_same (s : State) (h : s._speed = s.buf.get 1) : applySpeed s = s := by
  unfold applySpeed
  simp [h]

/-- A well-formed four-byte frame is read whole: the three payload bytes
land in `buf[0..2]`, the terminator in `buf[3]`, and the trailing NUL store
falls at index 4, past the end of the array. -/
theorem UART_getString_frame4 (s : State) (a b c : Nat) (more : List Nat)
    (hrx : s.rx = a :: b :: c :: 10 :: more)
    (ha : a < 256) (hb : b < 256) (hc : c < 256)
    (ha0 : a ≠ 0 ∧ a ≠ 10 ∧ a ≠ 13) (hb0 : b ≠ 0 ∧ b ≠ 10 ∧ b ≠ 13)
    (hc0 : c ≠ 0 ∧ c ≠ 10 ∧ c ≠ 13) :
    UART_getString s =
      ({ s with buf := ⟨a, b, c, 10⟩, rx := more, mem := s.mem ++ [MemEv.store 4 0] },
       some 5) := by
  have ma : a % 256 = a := Nat.mod_eq_of_lt ha
  have mb : b % 256 = b := Nat.mod_eq_of_lt hb
  have mc : c % 256 = c := Nat.mod_eq_of_lt hc
  unfold UART_getString
  rw [hrx]
  simp [UART_getString_from, storeBuf, Buf4.set, ma, mb, mc, ha0.1, ha0.2.1, ha0.2.2,
    hb0.1, hb0.2.1, hb0.2.2, hc0.1, hc0.2.1, hc0.2.2]

/-! ## Log extensions -/

theorem Extends.trans {P : IOEv → Prop} {s t u : State} (h1 : Extends P s t)
    (h2 : Extends P t u) : Extends P s u := by
  obtain ⟨e1, he1, hp1⟩ := h1
  obtain ⟨e2, he2, hp2⟩ := h2
  refine ⟨e1 ++ e2, by rw [he2, he1, List.append_assoc], ?_⟩
  intro x hx
  rcases List.mem_append.1 hx with h | h
  · exact hp1 x h
  · exact hp2 x h

theorem Extends.mono {P Q : IOEv → Prop} {s t : State} (hPQ : ∀ x, P x → Q x)
    (h : Extends P s t) : Extends Q s t := by
  obtain ⟨e, he, hp⟩ := h
  exact ⟨e, he, fun x hx => hPQ x (hp x hx)⟩

theorem Extends.one {P : IOEv → Prop} {s t : State} (x : IOEv) (h : t.out = s.out ++ [x])
    (hx : P x) : Extends P s t :=
  ⟨[x], h, by intro y hy; rw [List.mem_singleton.1 hy]; exact hx⟩

theorem extends_putChar {P : IOEv → Prop} (c : Nat) (s : State) (h : P (IOEv.tx c)) :
    Extends P s (UART_putChar c s) :=
  Extends.one _ rfl h

theorem UART_getString_some (s : State) (h : (UART_getString s).2 ≠ none) :
    ∃ g n, UART_getString s = (g, some n) := by
  rcases hx : UART_getString s with ⟨g, _ | n⟩
  · rw [hx] at h; exact absurd rfl h
  · exact ⟨g, n, rfl⟩

theorem handshakeReply_plain (F_CPU : Nat) (s g : State) (n : Nat)
    (hg : UART_getString s = (g, some n))
    (h0 : g.buf.get 0 = OF) (h1 : g.buf.get 1 = OF + MIN_SPEED + 1) (h2 : g.buf.get 2 = OF + 2) :
    handshakeReply F_CPU s =
      { sessionStart F_CPU (UART_putString [OF, OF + MIN_SPEED + 1, OF + 2, 10]
          (_delay_ms 100 { g with smooth := false, running := true })) with pc := .loopHead } := by
  unfold handshakeReply
  rw [hg]
  simp [h0, h1, h2, hshake]

theorem handshakeReply_smooth (F_CPU : Nat) (s g : State) (n : Nat)
    (hg : UART_getString s = (g, some n))
    (h0 : g.buf.get 0 = OF) (h1 : g.buf.get 1 = OF + MIN_SPEED + 1) (h2 : g.buf.get 2 = 108) :
    handshakeReply F_CPU s =
      { sessionStart F_CPU (UART_putString [OF, OF + MIN_SPEED + 1, 108, 10]
          (_delay_ms 100 { g with smooth := true, running := true })) with pc := .loopHead } := by
  unfold handshakeReply
  rw [hg]
  simp [h0, h1, h2, hshake]

theorem handshakeReply_other (F_CPU : Nat) (s g : State) (n : Nat)
    (hg : UART_getString s = (g, some n))
    (h0 : g.buf.get 0 = OF) (h1 : g.buf.get 1 = OF + MIN_SPEED + 1)
    (h2 : g.buf.get 2 ≠ OF + 2) (h3 : g.buf.get 2 ≠ 108) :
    handshakeReply F_CPU s =
      { sessionStart F_CPU (UART_putString [OF, OF + MIN_SPEED + 1, OF + 2, 10]
          (_delay_ms 100 g)) with pc := .loopHead } := by
  unfold handshakeReply
  rw [hg]
  simp [h0, h1, h2, h3, hshake]

/-- Sending a four-byte array with no zero byte: the four bytes go out in
order and the loop then reads index 4 to look for the terminator. -/
theorem UART_putString_four (a b c d : Nat) (s : State)
    (ha : a ≠ 0) (hb : b ≠ 0) (hc : c ≠ 0) (hd : d ≠ 0) :
    UART_putString [a, b, c, d] s =
      { s with out := s.out ++ [IOEv.tx a, IOEv.tx b, IOEv.tx c, IOEv.tx d],
               mem := s.mem ++ [MemEv.load 4] } := by
  simp [UART_putString, UART_putString_from, UART_putChar, ha, hb, hc, hd]

theorem repeatBody_succ_end (body : State → State) (n : Nat) :
    ∀ s, repeatBody body (n + 1) s = body (repeatBody body n s) := by
  induction n with
  | zero => intro s; rfl
  | succ n ih =>
    intro s
    show repeatBody body (n + 1) (body s) = body (repeatBody body n (body s))
    exact ih (body s)

theorem toU16_sub (a b : Nat) (h : b ≤ a) (ha : a < 65536) :
    toU16 ((a : Int) - (b : Int)) = a - b := by
  have e : ((a : Int) - (b : Int)) = ((a - b : Nat) : Int) := by omega
  rw [e, toU16_natCast]
  omega

theorem rampLog_length (value : Nat → Nat) (n : Nat) : (rampLog value n).length = 2 * n := by
  induction n with
  | zero => rfl
  | succ n ih => simp [rampLog, ih]; omega

/-- The `k`-th store of an interpolation log is `value k`. -/
theorem rampLog_get (value : Nat → Nat) (n k : Nat) (h1 : 1 ≤ k) (hk : k ≤ n) :
    (rampLog value n)[2 * (k - 1)]? = some (IOEv.write .OCR3A (value k)) := by
  induction n with
  | zero => omega
  | succ n ih =>
    have hl := rampLog_length value n
    by_cases hkn : k ≤ n
    · have hlt : 2 * (k - 1) < (rampLog value n).length := by omega
      simp only [rampLog]
      rw [List.getElem?_append_left hlt]
      exact ih hkn
    · have hk' : k = n + 1 := by omega
      subst hk'
      simp only [rampLog]
      rw [List.getElem?_append_right (by omega)]
      simp [hl]

/-- The increasing loop after `n` passes, as long as it stays below 2^16. -/
theorem rampUp_state (step : Nat) (n : Nat) (s : State)
    (h : s.OCR3A + n * step < 65536) :
    repeatBody (fun t => _delay_ms 75 (wr .OCR3A (t.OCR3A + step) t)) n s =
      { s with OCR3A := s.OCR3A + n * step,
               out := s.out ++ rampLog (fun k => s.OCR3A + k * step) n } := by
  induction n with
  | zero => simp [repeatBody, rampLog]
  | succ n ih =>
    have hn : s.OCR3A + n * step < 65536 := by
      have : n * step ≤ (n + 1) * step := Nat.mul_le_mul_right _ (by omega)
      omega
    have hm : (s.OCR3A + n * step + step) % 65536 = s.OCR3A + (n + 1) * step := by
      rw [Nat.mod_eq_of_lt (by rw [Nat.add_mul] at h; omega)]
      rw [Nat.add_mul]
      omega
    rw [repeatBody_succ_end, ih hn]
    simp [wr, _delay_ms, Reg.width, rampLog, hm]

/-- The decreasing loop after `n` passes, as long as it stays at or above 0. -/
theorem rampDown_state (step : Nat) (n : Nat) (s : State)
    (h : n * step ≤ s.OCR3A) (hs : s.OCR3A < 65536) :
    repeatBody (fun t => _delay_ms 75 (wr .OCR3A (toU16 ((t.OCR3A : Int) - (step : Int))) t)) n s =
      { s with OCR3A := s.OCR3A - n * step,
               out := s.out ++ rampLog (fun k => s.OCR3A - k * step) n } := by
  induction n with
  | zero => simp [repeatBody, rampLog]
  | succ n ih =>
    have hle : n * step ≤ (n + 1) * step := Nat.mul_le_mul_right _ (by omega)
    have hn : n * step ≤ s.OCR3A := by omega
    have hstep : step ≤ s.OCR3A - n * step := by
      rw [Nat.add_mul] at h
      omega
    have hm : toU16 (((s.OCR3A - n * step : Nat) : Int) - (step : Int)) % 65536
        = s.OCR3A - (n + 1) * step := by
      rw [toU16_sub _ _ hstep (by omega), Nat.add_mul]
      omega
    rw [repeatBody_succ_end, ih hn]
    simp only [wr, _delay_ms, Reg.width, rampLog]
    simp
    exact hm

/-- The increasing ramp, spelled out. -/
theorem set_speed_smoothly_up (speed : Nat) (s : State) (h : s.OCR3A < dutyOf speed) :
    set_speed_smoothly speed s =
      { s with OCR3A := dutyOf speed, ien := true,
               out := s.out ++ [IOEv.cli] ++
                 rampLog (fun k => s.OCR3A + k * ((dutyOf speed - s.OCR3A) / 20)) 20 ++
                 [IOEv.write .OCR3A (dutyOf speed), IOEv.sei] } := by
  have hd := dutyOf_lt speed
  have hst : toU16 ((dutyOf speed : Int) - ((cli s).OCR3A : Int)) = dutyOf speed - s.OCR3A :=
    toU16_sub _ _ (Nat.le_of_lt h) hd
  have hb : (cli s).OCR3A + 20 * ((dutyOf speed - s.OCR3A) / 20) < 65536 := by
    have := Nat.mul_div_le (dutyOf speed - s.OCR3A) 20
    show s.OCR3A + 20 * ((dutyOf speed - s.OCR3A) / 20) < 65536
    omega
  have hr := rampUp_state ((dutyOf speed - s.OCR3A) / 20) 20 (cli s) hb
  have key : set_speed_smoothly speed s = sei (setSpeed speed
      (repeatBody (fun t => _delay_ms 75 (wr .OCR3A (t.OCR3A + (dutyOf speed - s.OCR3A) / 20) t))
        20 (cli s))) := by
    unfold set_speed_smoothly
    simp only []
    rw [if_pos (show dutyOf speed > (cli s).OCR3A from h), hst]
  rw [key, hr]
  have e : dutyOf speed % 65536 = dutyOf speed := Nat.mod_eq_of_lt hd
  simp [sei, setSpeed, wr, cli, Reg.width, e]

/-- The decreasing ramp, spelled out. -/
theorem set_speed_smoothly_down (speed : Nat) (s : State) (h : dutyOf speed < s.OCR3A)
    (hs : s.OCR3A < 65536) :
    set_speed_smoothly speed s =
      { s with OCR3A := dutyOf speed, ien := true,
               out := s.out ++ [IOEv.cli] ++
                 rampLog (fun k => s.OCR3A - k * ((s.OCR3A - dutyOf speed) / 20)) 20 ++
                 [IOEv.write .OCR3A (dutyOf speed), IOEv.sei] } := by
  have hd := dutyOf_lt speed
  have hst : toU16 (((cli s).OCR3A : Int) - (dutyOf speed : Int)) = s.OCR3A - dutyOf speed :=
    toU16_sub _ _ (Nat.le_of_lt h) hs
  have hb : 20 * ((s.OCR3A - dutyOf speed) / 20) ≤ (cli s).OCR3A := by
    have := Nat.mul_div_le (s.OCR3A - dutyOf speed) 20
    show 20 * ((s.OCR3A - dutyOf speed) / 20) ≤ s.OCR3A
    omega
  have hr := rampDown_state ((s.OCR3A - dutyOf speed) / 20) 20 (cli s) hb hs
  have key : set_speed_smoothly speed s = sei (setSpeed speed
      (repeatBody (fun t => _delay_ms 75
        (wr .OCR3A (toU16 ((t.OCR3A : Int) - (((s.OCR3A - dutyOf speed) / 20 : Nat) : Int))) t))
        20 (cli s))) := by
    unfold set_speed_smoothly
    simp only []
    rw [if_neg (show ¬ dutyOf speed > (cli s).OCR3A from Nat.not_lt.2 (Nat.le_of_lt h)),
      if_pos (show dutyOf speed < (cli s).OCR3A from h), hst]
  rw [key, hr]
  have e : dutyOf speed % 65536 = dutyOf speed := Nat.mod_eq_of_lt hd
  simp [sei, setSpeed, wr, cli, Reg.width, e]

/-- The empty ramp, spelled out. -/
theorem set_speed_smoothly_level (speed : Nat) (s : State) (h : dutyOf speed = s.OCR3A) :
    set_speed_smoothly speed s =
      { s with OCR3A := dutyOf speed, ien := true,
               out := s.out ++ [IOEv.cli, IOEv.write .OCR3A (dutyOf speed), IOEv.sei] } := by
  have hd := dutyOf_lt speed
  have e : dutyOf speed % 65536 = dutyOf speed := Nat.mod_eq_of_lt hd
  unfold set_speed_smoothly
  simp only []
  rw [if_neg (show ¬ dutyOf speed > (cli s).OCR3A from by rw [h]; exact Nat.lt_irrefl _),
    if_neg (show ¬ dutyOf speed < (cli s).OCR3A from by rw [h]; exact Nat.lt_irrefl _)]
  simp [sei, setSpeed, wr, cli, Reg.width, e]

/-! ## The log of a direction change -/

theorem setDirection_out (dir : Nat) (s : State) :
    (setDirection dir s).out = s.out ++ pinLog dir s.PORTH := by
  unfold setDirection pinLog pinsAfter
  split_ifs <;> simp [wr, Reg.width]

theorem pinsEncode_pinsAfter (dir p : Nat) : PinsEncode dir (pinsAfter dir p) := by
  by_cases h1 : dir = CWISE
  · exact pinsAfter_encodes dir p (Or.inl h1)
  · by_cases h2 : dir = CCWISE
    · exact pinsAfter_encodes dir p (Or.inr h2)
    · exact ⟨fun h => absurd h h1, fun h => absurd h h2⟩

theorem consistent_other {s : State} {m : LastMsg} (h : Consistent s m) :
    Consistent s .other := ⟨trivial, h.2⟩

theorem notBoth_clear6 (p : Nat) : NotBoth ((p &&& cnot (1 <<< PH6)) % 2 ^ 8) := by
  have c6 : (cnot (1 <<< PH6)).testBit 6 = false := by decide
  intro h
  have h6 := h.2
  simp only [Nat.testBit_mod_two_pow, Nat.testBit_and, c6, PH6] at h6
  simp at h6

theorem notBoth_clear5 (p : Nat) : NotBoth ((p &&& cnot (1 <<< PH5)) % 2 ^ 8) := by
  have c5 : (cnot (1 <<< PH5)).testBit 5 = false := by decide
  intro h
  have h5 := h.1
  simp only [Nat.testBit_mod_two_pow, Nat.testBit_and, c5, PH5] at h5
  simp at h5

theorem notBoth_pinsAfter (dir p : Nat) (h : NotBoth p) : NotBoth (pinsAfter dir p) := by
  by_cases h1 : dir = CWISE
  · have := (pinsAfter_encodes dir p (Or.inl h1)).1 h1
    intro hb
    rw [this.2] at hb
    exact absurd hb.2 (by decide)
  · by_cases h2 : dir = CCWISE
    · have := (pinsAfter_encodes dir p (Or.inr h2)).2 h2
      intro hb
      rw [this.2] at hb
      exact absurd hb.1 (by decide)
    · unfold pinsAfter
      rw [if_neg h1, if_neg h2]
      exact h

theorem pinLog_ok (dir p : Nat) : ∀ x ∈ pinLog dir p, PinWriteOk x := by
  intro x hx v hv
  subst hv
  unfold pinLog at hx
  split_ifs at hx with h1 h2
  · rcases List.mem_cons.1 hx with h | h
    · cases h
      exact notBoth_clear6 p
    · have hv : v = pinsAfter dir p := (IOEv.write.inj (List.mem_singleton.1 h)).2
      have hb := (pinsAfter_encodes dir p (Or.inl h1)).1 h1
      rw [hv]
      intro hn
      rw [hb.2] at hn
      exact absurd hn.2 (by decide)
  · rcases List.mem_cons.1 hx with h | h
    · cases h
      exact notBoth_clear5 p
    · have hv : v = pinsAfter dir p := (IOEv.write.inj (List.mem_singleton.1 h)).2
      have hb := (pinsAfter_encodes dir p (Or.inr h2)).2 h2
      rw [hv]
      intro hn
      rw [hb.2] at hn
      exact absurd hn.1 (by decide)
  · simp at hx

theorem pinsSafe_congr {s t : State} (h : PinsSafe s) (hP : t.PORTH = s.PORTH)
    (hO : t.out = s.out) : PinsSafe t := by
  unfold PinsSafe at h ⊢
  rw [hP, hO]
  exact h

theorem pinsSafe_log {s t : State} (h : PinsSafe s) (x : IOEv) (hP : t.PORTH = s.PORTH)
    (hO : t.out = s.out ++ [x]) (hx : PinWriteOk x) : PinsSafe t := by
  unfold PinsSafe at h ⊢
  rw [hP, hO]
  refine ⟨h.1, fun y hy => ?_⟩
  rcases List.mem_append.1 hy with hy | hy
  · exact h.2 y hy
  · rw [List.mem_singleton.1 hy]
    exact hx

theorem pinWriteOk_of_reg (r : Reg) (v : Nat) (h : r ≠ Reg.PORTH) :
    PinWriteOk (IOEv.write r v) := by
  intro w hw
  cases hw
  exact absurd rfl h

theorem pinsSafe_wr (r : Reg) (v : Nat) (s : State) (hr : r ≠ Reg.PORTH) (h : PinsSafe s) :
    PinsSafe (wr r v s) := by
  refine pinsSafe_log h (IOEv.write r (v % 2 ^ r.width)) ?_ ?_ (pinWriteOk_of_reg _ _ hr)
  · cases r <;> first | rfl | exact absurd rfl hr
  · cases r <;> rfl

theorem pinsSafe_wr_pins (v : Nat) (s : State) (hv : NotBoth (v % 2 ^ 8)) (h : PinsSafe s) :
    PinsSafe (wr .PORTH v s) := by
  refine ⟨hv, fun y hy => ?_⟩
  rcases List.mem_append.1 (show y ∈ s.out ++ [IOEv.write .PORTH (v % 2 ^ 8)] from hy) with hy | hy
  · exact h.2 y hy
  · rw [List.mem_singleton.1 hy]
    intro w hw
    cases hw
    exact hv

theorem pinsSafe_cli (s : State) (h : PinsSafe s) : PinsSafe (cli s) :=
  pinsSafe_log h IOEv.cli rfl rfl (fun v hv => by cases hv)

theorem pinsSafe_sei (s : State) (h : PinsSafe s) : PinsSafe (sei s) :=
  pinsSafe_log h IOEv.sei rfl rfl (fun v hv => by cases hv)

theorem pinsSafe_delay (ms : Nat) (s : State) (h : PinsSafe s) : PinsSafe (_delay_ms ms s) :=
  pinsSafe_log h (IOEv.delay_ms ms) rfl rfl (fun v hv => by cases hv)

theorem pinsSafe_putChar (c : Nat) (s : State) (h : PinsSafe s) : PinsSafe (UART_putChar c s) :=
  pinsSafe_log h (IOEv.tx c) rfl rfl (fun v hv => by cases hv)

theorem pinsSafe_putString_from (l : List Nat) :
    ∀ (i : Nat) (s : State), PinsSafe s → PinsSafe (UART_putString_from i l s) := by
  induction l with
  | nil => intro i s h; exact ⟨h.1, h.2⟩
  | cons b rest ih =>
    intro i s h
    simp only [UART_putString_from]
    split_ifs
    · exact h
    · exact ih (i + 1) _ (pinsSafe_putChar b s h)

theorem pinsSafe_putString (l : List Nat) (s : State) (h : PinsSafe s) :
    PinsSafe (UART_putString l s) :=
  pinsSafe_putString_from l 0 s h

theorem pinsSafe_getString (s : State) (h : PinsSafe s) : PinsSafe (UART_getString s).1 := by
  have hcore := rxCore_UART_getString s
  exact pinsSafe_congr h (congrArg State.PORTH hcore :) (congrArg State.out hcore :)

theorem pinsSafe_setSpeed (speed : Nat) (s : State) (h : PinsSafe s) :
    PinsSafe (setSpeed speed s) :=
  pinsSafe_wr _ _ s (by decide) h

theorem pinsSafe_setPacketRate (F_CPU r : Nat) (s : State) (h : PinsSafe s) :
    PinsSafe (setPacketRate F_CPU r s) := by
  unfold setPacketRate
  split_ifs
  · exact h
  · exact pinsSafe_wr _ _ s (by decide) h

theorem pinsSafe_setDirection (dir : Nat) (s : State) (h : PinsSafe s) :
    PinsSafe (setDirection dir s) := by
  refine ⟨?_, fun y hy => ?_⟩
  · rw [setDirection_PORTH]
    exact notBoth_pinsAfter dir _ h.1
  · rw [setDirection_out] at hy
    rcases List.mem_append.1 hy with hy | hy
    · exact h.2 y hy
    · exact pinLog_ok dir _ y hy

theorem pinsSafe_repeatBody (body : State → State)
    (hb : ∀ t, PinsSafe t → PinsSafe (body t)) (n : Nat) :
    ∀ s, PinsSafe s → PinsSafe (repeatBody body n s) := by
  induction n with
  | zero => intro s h; exact h
  | succ n ih => intro s h; exact ih (body s) (hb s h)

theorem pinsSafe_set_speed_smoothly (speed : Nat) (s : State) (h : PinsSafe s) :
    PinsSafe (set_speed_smoothly speed s) := by
  unfold set_speed_smoothly
  simp only []
  refine pinsSafe_sei _ (pinsSafe_setSpeed _ _ ?_)
  split_ifs
  · exact pinsSafe_repeatBody _
      (fun t ht => pinsSafe_delay _ _ (pinsSafe_wr _ _ t (by decide) ht)) _ _ (pinsSafe_cli s h)
  · exact pinsSafe_repeatBody _
      (fun t ht => pinsSafe_delay _ _ (pinsSafe_wr _ _ t (by decide) ht)) _ _ (pinsSafe_cli s h)
  · exact pinsSafe_cli s h

theorem pinsSafe_setPc (pc : PC) (s : State) (h : PinsSafe s) : PinsSafe { s with pc := pc } :=
  ⟨h.1, h.2⟩

theorem pinsSafe_setMsg (b : Bool) (s : State) (h : PinsSafe s) :
    PinsSafe { s with msg_rcv := b } :=
  ⟨h.1, h.2⟩

theorem pinsSafe_setRunning (b : Bool) (s : State) (h : PinsSafe s) :
    PinsSafe { s with running := b } :=
  ⟨h.1, h.2⟩

theorem pinsSafe_setMode (b c : Bool) (s : State) (h : PinsSafe s) :
    PinsSafe { s with smooth := b, running := c } :=
  ⟨h.1, h.2⟩

theorem pinsSafe_setBuf (b : Buf4) (s : State) (h : PinsSafe s) : PinsSafe { s with buf := b } :=
  ⟨h.1, h.2⟩

theorem pinsSafe_setRate (v : Nat) (s : State) (h : PinsSafe s) :
    PinsSafe { s with _packet_rate := v } :=
  ⟨h.1, h.2⟩

theorem pinsSafe_setSpeedField (v : Nat) (s : State) (h : PinsSafe s) :
    PinsSafe { s with _speed := v } :=
  ⟨h.1, h.2⟩

theorem pinsSafe_setDirField (v : Nat) (s : State) (h : PinsSafe s) :
    PinsSafe { s with _direction := v } :=
  ⟨h.1, h.2⟩

theorem pinsSafe_setStamp (v : Nat) (s : State) (h : PinsSafe s) :
    PinsSafe { s with _timestamp := v } :=
  ⟨h.1, h.2⟩

theorem pinsSafe_setTick (b : Bool) (s : State) (h : PinsSafe s) :
    PinsSafe { s with timer_occurred := b } :=
  ⟨h.1, h.2⟩

theorem pinsSafe_sessionStart (F_CPU : Nat) (s : State) (h : PinsSafe s) :
    PinsSafe (sessionStart F_CPU s) := by
  have h1 : PinsSafe (setupTimer F_CPU s) := by
    unfold setupTimer
    exact pinsSafe_wr _ _ _ (by decide) (pinsSafe_wr _ _ _ (by decide)
      (pinsSafe_wr _ _ _ (by decide) (pinsSafe_wr _ _ _ (by decide) h)))
  have h2 : PinsSafe (PWM_init (setupTimer F_CPU s)) := by
    unfold PWM_init
    exact pinsSafe_wr _ _ _ (by decide) (pinsSafe_wr _ _ _ (by decide)
      (pinsSafe_wr _ _ _ (by decide) (pinsSafe_wr _ _ _ (by decide) h1)))
  have h3 : PinsSafe { PWM_init (setupTimer F_CPU s) with
      _timestamp := 1, _speed := MIN_SPEED, _direction := CWISE, _packet_rate := 1 } :=
    ⟨h2.1, h2.2⟩
  unfold sessionStart
  exact pinsSafe_sei _ (pinsSafe_wr _ _ _ (by decide) (pinsSafe_setPacketRate _ _ _
    (pinsSafe_setDirection _ _ (pinsSafe_setSpeed _ _ h3))))

theorem pinsSafe_applyRate (F_CPU : Nat) (s : State) (h : PinsSafe s) :
    PinsSafe (applyRate F_CPU s) := by
  unfold applyRate
  split_ifs
  · exact pinsSafe_setPacketRate _ _ _ (pinsSafe_setRate _ s h)
  · exact h

theorem pinsSafe_applySpeed (s : State) (h : PinsSafe s) : PinsSafe (applySpeed s) := by
  unfold applySpeed
  split_ifs
  · exact pinsSafe_setSpeed _ _ (pinsSafe_setSpeedField _ s h)
  · exact h

theorem pinsSafe_applyDirection (s : State) (h : PinsSafe s) : PinsSafe (applyDirection s) := by
  by_cases hd : s._direction = s.buf.get 2
  · rw [applyDirection_same s hd]
    exact h
  · rw [applyDirection_changed s hd]
    split_ifs
    · exact pinsSafe_set_speed_smoothly _ _ (pinsSafe_setDirection _ _
        (pinsSafe_set_speed_smoothly _ _ (pinsSafe_setDirField _ s h)))
    · exact pinsSafe_setDirection _ _ (pinsSafe_setDirField _ s h)

theorem pinsSafe_applyFields (F_CPU : Nat) (s : State) (h : PinsSafe s) :
    PinsSafe (applyFields F_CPU s) :=
  pinsSafe_applyDirection _ (pinsSafe_applySpeed _ (pinsSafe_applyRate F_CPU s h))

theorem pinsSafe_commandProcessor (F_CPU : Nat) (s : State) (h : PinsSafe s) :
    PinsSafe (commandProcessor F_CPU s) := by
  by_cases hc : s.buf.get 0 = CF
  · rw [commandProcessor_of_close F_CPU s hc]
    exact ⟨h.1, (pinsSafe_cli s h).2⟩
  · rw [commandProcessor_of_ne F_CPU s hc]
    exact pinsSafe_setMsg _ _ (pinsSafe_applyFields F_CPU s h)

theorem pinsSafe_receiveCommand (F_CPU : Nat) (s : State) (h : PinsSafe s) :
    PinsSafe (receiveCommand F_CPU s) := by
  have hg := pinsSafe_getString s h
  unfold receiveCommand
  rcases hx : UART_getString s with ⟨g, _ | n⟩
  · rw [hx] at hg
    exact pinsSafe_setPc _ g hg
  · rw [hx] at hg
    exact pinsSafe_setPc _ _ (pinsSafe_commandProcessor F_CPU g hg)

theorem pinsSafe_handshakeReply (F_CPU : Nat) (s : State) (h : PinsSafe s) :
    PinsSafe (handshakeReply F_CPU s) := by
  have hg := pinsSafe_getString s h
  unfold handshakeReply
  rcases hx : UART_getString s with ⟨g, _ | n⟩
  · rw [hx] at hg
    exact pinsSafe_setPc _ g hg
  · rw [hx] at hg
    simp only []
    split_ifs
    · exact pinsSafe_setPc _ _ (pinsSafe_sessionStart _ _ (pinsSafe_putString _ _
        (pinsSafe_delay _ _ (pinsSafe_setMode _ _ g hg))))
    · exact pinsSafe_setPc _ _ (pinsSafe_sessionStart _ _ (pinsSafe_putString _ _
        (pinsSafe_delay _ _ (pinsSafe_setMode _ _ g hg))))
    · exact pinsSafe_setPc _ _ (pinsSafe_sessionStart _ _ (pinsSafe_putString _ _
        (pinsSafe_delay _ _ hg)))
    · exact pinsSafe_setPc _ g hg

theorem pinsSafe_drainSession (F_CPU : Nat) (s : State) (h : PinsSafe s) :
    PinsSafe (drainSession F_CPU s) := by
  have h1 : PinsSafe (PWM_stop s) := pinsSafe_wr _ _ s (by decide) h
  unfold drainSession
  exact pinsSafe_delay _ _ (pinsSafe_setBuf _ _ (pinsSafe_setSpeed _ _
    (pinsSafe_setPacketRate _ _ _ (pinsSafe_setSpeedField _ _ (pinsSafe_setRate _ _
      (pinsSafe_setStamp _ _ h1))))))

theorem pinsSafe_telemetryEmitter (s : State) (h : PinsSafe s) :
    PinsSafe (telemetryEmitter s) := by
  unfold telemetryEmitter
  exact pinsSafe_setTick _ _ (pinsSafe_setStamp _ _ (pinsSafe_putChar _ _ (pinsSafe_putChar _ _
    (pinsSafe_putChar _ _ (pinsSafe_putChar _ _ h)))))

theorem pinsSafe_step (F_CPU : Nat) (e : Event) (s : State) (h : PinsSafe s) :
    PinsSafe (step F_CPU e s) := by
  cases e with
  | timer =>
    simp only [step, timerISR]
    split_ifs
    · exact pinsSafe_setTick _ s h
    · exact h
  | rxc =>
    simp only [step, rxISR]
    split_ifs
    · exact pinsSafe_setMsg _ s h
    · exact h
  | prog =>
    rcases hpc : s.pc
    · simp only [step, progStep, hpc]
      exact pinsSafe_setPc _ _ (pinsSafe_putString hshake s h)
    · simp only [step, progStep, hpc]
      exact pinsSafe_handshakeReply F_CPU s h
    · simp only [step, progStep, hpc]
      split_ifs
      · exact pinsSafe_setPc _ s h
      · exact pinsSafe_setPc _ s h
    · simp only [step, progStep, hpc]
      split_ifs with ht
      · exact pinsSafe_setPc _ _ (pinsSafe_telemetryEmitter s h)
      · exact pinsSafe_setPc _ s h
    · simp only [step, progStep, hpc]
      split_ifs
      · exact pinsSafe_receiveCommand F_CPU s h
      · exact pinsSafe_setPc _ s h
    · simp only [step, progStep, hpc]
      exact pinsSafe_setPc _ _ (pinsSafe_drainSession F_CPU s h)
    · simp only [step, progStep, hpc]
      exact h
    · simp only [step, progStep, hpc]
      exact h

theorem pinsSafe_run (F_CPU : Nat) (evs : List Event) :
    ∀ s, PinsSafe s → PinsSafe (run F_CPU evs s) := by
  induction evs with
  | nil => intro s h; exact h
  | cons e es ih => intro s h; exact ih _ (pinsSafe_step F_CPU e s h)

theorem pinsSafe_boot (rx : List Nat) (buf0 : Buf4) : PinsSafe (boot rx buf0) := by
  have h0 : NotBoth 0 := by unfold NotBoth; decide
  refine ⟨h0, fun y hy => ?_⟩
  intro v hv
  subst hv
  simp [boot] at hy

/-! ## The compare value the command processor leaves in `OCR5A` -/

theorem compareOf_lt (F_CPU r : Nat) : compareOf F_CPU r < 65536 := by
  unfold compareOf toU16
  have h := Int.emod_lt_of_pos ((F_CPU : Int) / 1024 / (r : Int) - 1) (by decide : (0 : Int) < 65536)
  have h0 := Int.emod_nonneg ((F_CPU : Int) / 1024 / (r : Int) - 1) (by decide : (65536 : Int) ≠ 0)
  omega

theorem setPacketRate_compare (F_CPU r : Nat) (s : State) (hr : r ≠ 0) :
    (setPacketRate F_CPU r s).OCR5A = compareOf F_CPU r := by
  have h := compareOf_lt F_CPU r
  unfold compareOf at h
  simp only [setPacketRate, hr, if_false, wr, Reg.width, compareOf]
  exact Nat.mod_eq_of_lt h

theorem applyRate_OCR5A (F_CPU : Nat) (s : State) :
    (applyRate F_CPU s).OCR5A =
      if s._packet_rate ≠ s.buf.get 0 ∧ s.buf.get 0 ≠ 0 then compareOf F_CPU (s.buf.get 0)
      else s.OCR5A := by
  unfold applyRate
  by_cases h : s._packet_rate = s.buf.get 0
  · simp [h]
  · by_cases h0 : s.buf.get 0 = 0
    · rw [if_pos h, if_neg (fun hh => hh.2 h0)]
      simp only [h0, setPacketRate, if_true]
    · rw [if_pos h, if_pos ⟨h, h0⟩]
      exact setPacketRate_compare F_CPU _ _ h0

theorem applyFields_OCR5A (F_CPU : Nat) (s : State) :
    (applyFields F_CPU s).OCR5A =
      if s._packet_rate ≠ s.buf.get 0 ∧ s.buf.get 0 ≠ 0 then compareOf F_CPU (s.buf.get 0)
      else s.OCR5A := by
  have hr := applyRate_OCR5A F_CPU s
  obtain ⟨_, _, p3, _, p5, _, p7⟩ := applySpeed_proj (applyRate F_CPU s)
  unfold applyFields
  by_cases hd : (applySpeed (applyRate F_CPU s))._direction
      = (applySpeed (applyRate F_CPU s)).buf.get 2
  · rw [applyDirection_same _ hd, p3, hr]
  · rw [(applyDirection_proj _ hd).2.2, p3, hr]

/-- The command processor on a message whose first three bytes equal the
rate, speed and direction it finds in the session state (the rate not being
the close marker) only clears `msg_rcv`. -/
theorem commandProcessor_same (F_CPU : Nat) (g : State) (hne : g._packet_rate ≠ CF)
    (h0 : g.buf.get 0 = g._packet_rate) (h1 : g.buf.get 1 = g._speed)
    (h2 : g.buf.get 2 = g._direction) :
    commandProcessor F_CPU g = { g with msg_rcv := false } := by
  rw [commandProcessor_of_ne F_CPU g (by rw [h0]; exact hne)]
  unfold applyFields
  rw [applyRate_same F_CPU g h0.symm, applySpeed_same g h1.symm, applyDirection_same g h2.symm]

/-! ## The string routines on a build with neighbours to the arrays -/

theorem locCore_storeLocal (x : Local) (v : Nat) (s : State) :
    locCore (storeLocal x v s) = locCore s := by
  cases x <;> rfl

theorem locCore_setBuf {s t : State} (h : locCore s = locCore t) (i v : Nat) :
    locCore { s with buf := s.buf.set i v } = locCore { t with buf := t.buf.set i v } := by
  have e1 : locCore { s with buf := s.buf.set i v }
      = { locCore s with buf := (locCore s).buf.set i v } := rfl
  have e2 : locCore { t with buf := t.buf.set i v }
      = { locCore t with buf := (locCore t).buf.set i v } := rfl
  rw [e1, e2, h]

theorem locCore_addMem {s t : State} (h : locCore s = locCore t) (m : MemEv) :
    locCore { s with mem := s.mem ++ [m] } = locCore { t with mem := t.mem ++ [m] } := by
  have e1 : locCore { s with mem := s.mem ++ [m] }
      = { locCore s with mem := (locCore s).mem ++ [m] } := rfl
  have e2 : locCore { t with mem := t.mem ++ [m] }
      = { locCore t with mem := (locCore t).mem ++ [m] } := rfl
  rw [e1, e2, h]

theorem locCore_setRx {s t : State} (h : locCore s = locCore t) (r : List Nat) :
    locCore { s with rx := r } = locCore { t with rx := r } := by
  have e1 : locCore { s with rx := r } = { locCore s with rx := r } := rfl
  have e2 : locCore { t with rx := r } = { locCore t with rx := r } := rfl
  rw [e1, e2, h]

/-- Whatever lies behind `buf`, a store through `buf` differs from the
recorded-only store at most in the locals of `main`. -/
theorem locCore_storeBuf_in (behind : List Local) (i v : Nat) {s t : State}
    (h : locCore s = locCore t) :
    locCore (storeBuf_in behind i v s) = locCore (storeBuf i v t) := by
  unfold storeBuf_in storeBuf
  by_cases hi : i < 4
  · rw [if_pos hi, if_pos hi]
    exact locCore_setBuf h i v
  · rw [if_neg hi, if_neg hi]
    rcases behind[i - 4]? with _ | x
    · exact locCore_addMem h _
    · exact (locCore_storeLocal x v _).trans (locCore_addMem h _)

theorem locCore_UART_getString_from_in (behind : List Local) (l : List Nat) :
    ∀ (i : Nat) (s t : State), locCore s = locCore t →
      locCore (UART_getString_from_in behind i s l).1 = locCore (UART_getString_from i t l).1 ∧
      (UART_getString_from_in behind i s l).2 = (UART_getString_from i t l).2 := by
  induction l with
  | nil => intro i s t h; exact ⟨locCore_setRx h [], rfl⟩
  | cons d rest ih =>
    intro i s t h
    have h1 := locCore_storeBuf_in behind i (d % 256) h
    simp only [UART_getString_from_in, UART_getString_from]
    split_ifs
    · exact ⟨locCore_setRx h1 rest, rfl⟩
    · exact ⟨locCore_setRx (locCore_storeBuf_in behind (i + 1) 0 h1) rest, rfl⟩
    · exact ih (i + 1) _ _ h1

/-- Whatever lies behind `buf`, the read consumes the same bytes, returns
the same count and leaves the same `buf`, registers and log as the read with
nothing behind `buf`; only locals of `main` can differ. -/
theorem UART_getString_in_agrees (behind : List Local) (s : State) :
    locCore (UART_getString_in behind s).1 = locCore (UART_getString s).1 ∧
    (UART_getString_in behind s).2 = (UART_getString s).2 := by
  unfold UART_getString_in UART_getString
  exact locCore_UART_getString_from_in behind s.rx 0 s s rfl

theorem storeBuf_in_nil (i v : Nat) (s : State) : storeBuf_in [] i v s = storeBuf i v s := by
  unfold storeBuf_in storeBuf
  split_ifs <;> simp

theorem UART_getString_from_in_nil (l : List Nat) :
    ∀ (i : Nat) (s : State), UART_getString_from_in [] i s l = UART_getString_from i s l := by
  induction l with
  | nil => intro i s; rfl
  | cons d rest ih =>
    intro i s
    simp only [UART_getString_from_in, UART_getString_from, storeBuf_in_nil, ih]

/-- With no local behind `buf` the two reads are the same function. -/
theorem UART_getString_in_nil (s : State) : UART_getString_in [] s = UART_getString s := by
  unfold UART_getString_in UART_getString
  exact UART_getString_from_in_nil s.rx 0 s

theorem receiveCommand_in_nil (F_CPU : Nat) (s : State) :
    receiveCommand_in [] F_CPU s = receiveCommand F_CPU s := by
  unfold receiveCommand_in receiveCommand
  rw [UART_getString_in_nil]

theorem UART_putString_from_in_nil (arr : List Nat) :
    ∀ (i : Nat) (s : State), UART_putString_from_in [] i arr s = UART_putString_from i arr s := by
  induction arr with
  | nil => intro i s; rfl
  | cons b rest ih =>
    intro i s
    simp only [UART_putString_from_in, UART_putString_from, ih]

theorem UART_putString_in_nil (arr : List Nat) (s : State) :
    UART_putString_in [] arr s = UART_putString arr s :=
  UART_putString_from_in_nil arr 0 s

theorem handshakeReply_in_nil (F_CPU : Nat) (s : State) :
    handshakeReply_in [] [] F_CPU s = handshakeReply F_CPU s := by
  unfold handshakeReply_in handshakeReply
  simp only [UART_getString_in_nil, UART_putString_in_nil]

/-- With nothing behind the arrays the two transition functions are the
same. -/
theorem step_in_nil (F_CPU : Nat) (e : Event) (s : State) :
    step_in [] [] F_CPU e s = step F_CPU e s := by
  cases e with
  | timer => rfl
  | rxc => rfl
  | prog =>
    simp only [step_in, step, progStep_in, progStep]
    rcases hpc : s.pc <;>
      simp only [handshakeReply_in_nil, receiveCommand_in_nil, UART_putString_in_nil]

/-- A store behind `buf` leaves each of rate, speed and direction alone or
puts the stored byte there. -/
theorem storeBuf_in_past_session (behind : List Local) (i v : Nat) (t : State) (hi : 4 ≤ i) :
    ((storeBuf_in behind i v t)._packet_rate = t._packet_rate ∨
      (storeBuf_in behind i v t)._packet_rate = v) ∧
    ((storeBuf_in behind i v t)._speed = t._speed ∨ (storeBuf_in behind i v t)._speed = v) ∧
    ((storeBuf_in behind i v t)._direction = t._direction ∨
      (storeBuf_in behind i v t)._direction = v) := by
  unfold storeBuf_in
  rw [if_neg (by omega)]
  rcases behind[i - 4]? with _ | x
  · exact ⟨Or.inl rfl, Or.inl rfl, Or.inl rfl⟩
  · cases x
    · exact ⟨Or.inl rfl, Or.inl rfl, Or.inl rfl⟩
    · exact ⟨Or.inl rfl, Or.inl rfl, Or.inl rfl⟩
    · exact ⟨Or.inl rfl, Or.inl rfl, Or.inl rfl⟩
    · exact ⟨Or.inl rfl, Or.inr rfl, Or.inl rfl⟩
    · exact ⟨Or.inl rfl, Or.inl rfl, Or.inr rfl⟩
    · exact ⟨Or.inr rfl, Or.inl rfl, Or.inl rfl⟩

/-- A well-formed four-byte frame on a build with locals behind `buf`: the
three payload bytes land in `buf[0..2]`, the terminator in `buf[3]`, and the
trailing NUL is stored at index 4, on whatever lies there. -/
theorem UART_getString_in_frame4 (behind : List Local) (s : State) (a b c : Nat)
    (more : List Nat) (hrx : s.rx = a :: b :: c :: 10 :: more)
    (wa : a < 256 ∧ a ≠ 0 ∧ a ≠ 10 ∧ a ≠ 13) (wb : b < 256 ∧ b ≠ 0 ∧ b ≠ 10 ∧ b ≠ 13)
    (wc : c < 256 ∧ c ≠ 0 ∧ c ≠ 10 ∧ c ≠ 13) :
    UART_getString_in behind s =
      ({ storeBuf_in behind 4 0 { s with buf := ⟨a, b, c, 10⟩ } with rx := more }, some 5) := by
  have ma : a % 256 = a := Nat.mod_eq_of_lt wa.1
  have mb : b % 256 = b := Nat.mod_eq_of_lt wb.1
  have mc : c % 256 = c := Nat.mod_eq_of_lt wc.1
  have s0 : ∀ (v : Nat) (t : State), storeBuf_in behind 0 v t = { t with buf := t.buf.set 0 v } :=
    fun v t => by unfold storeBuf_in; rw [if_pos (by decide)]
  have s1 : ∀ (v : Nat) (t : State), storeBuf_in behind 1 v t = { t with buf := t.buf.set 1 v } :=
    fun v t => by unfold storeBuf_in; rw [if_pos (by decide)]
  have s2 : ∀ (v : Nat) (t : State), storeBuf_in behind 2 v t = { t with buf := t.buf.set 2 v } :=
    fun v t => by unfold storeBuf_in; rw [if_pos (by decide)]
  have s3 : ∀ (v : Nat) (t : State), storeBuf_in behind 3 v t = { t with buf := t.buf.set 3 v } :=
    fun v t => by unfold storeBuf_in; rw [if_pos (by decide)]
  unfold UART_getString_in
  have hl : UART_getString_from_in behind 0 s s.rx
      = UART_getString_from_in behind 0 s (a :: b :: c :: 10 :: more) := by rw [hrx]
  rw [hl]
  simp only [UART_getString_from_in, ma, mb, mc, wa.2.1, wa.2.2.1, wa.2.2.2, wb.2.1, wb.2.2.1,
    wb.2.2.2, wc.2.1, wc.2.2.1, wc.2.2.2, if_false, or_self, s0, s1, s2, s3]
  simp [Buf4.set]

/-- The `else` branch of the command processor brings duty register and pins
in step with the message.  Where the message repeats the speed or the
direction held, that field is not applied, and the register or the pins must
have matched it before. -/
theorem applyFields_hardware_cond (F_CPU : Nat) (s : State)
    (hduty : s._speed = s.buf.get 1 → s.OCR3A = dutyOf s._speed)
    (hpins : s._direction = s.buf.get 2 → PinsEncode s._direction s.PORTH) :
    (applyFields F_CPU s).OCR3A = dutyOf (s.buf.get 1) ∧
    PinsEncode (s.buf.get 2) (applyFields F_CPU s).PORTH := by
  obtain ⟨r1, r2, r3, r4, r5, r6⟩ := applyRate_proj F_CPU s
  obtain ⟨p1, p2, _, p4, p5, p6, p7⟩ := applySpeed_proj (applyRate F_CPU s)
  rw [r6] at p1 p4
  rw [r3, r1] at p1
  rw [r2] at p2
  rw [r4] at p5
  rw [r5] at p6
  rw [r6] at p7
  have hO : (applySpeed (applyRate F_CPU s)).OCR3A = dutyOf (s.buf.get 1) := by
    rw [p1]
    split_ifs with hne
    · rfl
    · rw [hduty (not_not.mp hne), not_not.mp hne]
  unfold applyFields
  by_cases hdir : s._direction = s.buf.get 2
  · rw [applyDirection_same _ (by rw [p5, p7]; exact hdir), hO, p2]
    exact ⟨rfl, hdir ▸ hpins hdir⟩
  · obtain ⟨q1, q2, _⟩ := applyDirection_proj (applySpeed (applyRate F_CPU s))
      (by rw [p5, p7]; exact hdir)
    rw [q1, q2, p7, p2, p4, hO]
    refine ⟨by split_ifs <;> rfl, pinsEncode_pinsAfter _ _⟩

theorem UART_getString_in_some (behind : List Local) (s : State)
    (h : (UART_getString_in behind s).2 ≠ none) :
    ∃ g n, UART_getString_in behind s = (g, some n) := by
  rcases hx : UART_getString_in behind s with ⟨g, _ | n⟩
  · rw [hx] at h; exact absurd rfl h
  · exact ⟨g, n, rfl⟩

theorem step_in_loopMsg_recv (behind : List Local) (spill : List Nat) (F_CPU : Nat)
    (s g : State) (n : Nat) (hpc : s.pc = .loopMsg) (hm : s.msg_rcv = true)
    (hg : UART_getString_in behind s = (g, some n)) :
    step_in behind spill F_CPU .prog s = { commandProcessor F_CPU g with pc := .loopHead } := by
  simp only [step_in, progStep_in, hpc, hm, if_true]
  unfold receiveCommand_in
  rw [hg]

/-- A well-formed frame that is not a close command, whatever locals lie
behind `buf`: the step that processes it leaves its three payload bytes as rate, speed and
direction, the duty register at the duty of its speed byte and the pins
encoding its direction byte, given register and pins matched the session
state before; the timer compare register follows the rate byte if it matched
the rate before. -/
theorem step_in_frame (behind : List Local) (spill : List Nat) (F_CPU : Nat) (s : State)
    (a b c : Nat) (more : List Nat)
    (hpc : s.pc = .loopMsg) (hm : s.msg_rcv = true)
    (hrx : s.rx = a :: b :: c :: 10 :: more)
    (wa : a < 256 ∧ a ≠ 0 ∧ a ≠ 10 ∧ a ≠ 13) (wb : b < 256 ∧ b ≠ 0 ∧ b ≠ 10 ∧ b ≠ 13)
    (wc : c < 256 ∧ c ≠ 0 ∧ c ≠ 10 ∧ c ≠ 13) (hcf : a ≠ CF)
    (hduty : s.OCR3A = dutyOf s._speed) (hpins : PinsEncode s._direction s.PORTH) :
    (step_in behind spill F_CPU .prog s)._packet_rate = a ∧
    (step_in behind spill F_CPU .prog s)._speed = b ∧
    (step_in behind spill F_CPU .prog s)._direction = c ∧
    (step_in behind spill F_CPU .prog s).OCR3A = dutyOf b ∧
    PinsEncode c (step_in behind spill F_CPU .prog s).PORTH ∧
    (s.OCR5A = compareOf F_CPU s._packet_rate →
      (step_in behind spill F_CPU .prog s).OCR5A = compareOf F_CPU a) ∧
    (step_in behind spill F_CPU .prog s).rx = more ∧
    (step_in behind spill F_CPU .prog s).msg_rcv = false ∧
    (step_in behind spill F_CPU .prog s).pc = .loopHead := by
  have hg := UART_getString_in_frame4 behind s a b c more hrx wa wb wc
  obtain ⟨t, htdef⟩ : ∃ t : State, t = { s with buf := ⟨a, b, c, 10⟩ } := ⟨_, rfl⟩
  rw [← htdef] at hg
  obtain ⟨l1, l2, l3⟩ := storeBuf_in_past_session behind 4 0 t (le_refl 4)
  have hc := locCore_storeBuf_in behind 4 0 (rfl : locCore t = locCore t)
  obtain ⟨u, hudef⟩ : ∃ u : State, u = storeBuf_in behind 4 0 t := ⟨_, rfl⟩
  rw [← hudef] at hg l1 l2 l3 hc
  have ub : u.buf = t.buf := (congrArg State.buf hc :)
  have uO : u.OCR3A = t.OCR3A := (congrArg State.OCR3A hc :)
  have uP : u.PORTH = t.PORTH := (congrArg State.PORTH hc :)
  have uC : u.OCR5A = t.OCR5A := (congrArg State.OCR5A hc :)
  obtain ⟨g, hgdef⟩ : ∃ g : State, g = { u with rx := more } := ⟨_, rfl⟩
  rw [← hgdef] at hg
  have b0 : g.buf.get 0 = a := by rw [hgdef]; show u.buf.get 0 = a; rw [ub, htdef]; rfl
  have b1 : g.buf.get 1 = b := by rw [hgdef]; show u.buf.get 1 = b; rw [ub, htdef]; rfl
  have b2 : g.buf.get 2 = c := by rw [hgdef]; show u.buf.get 2 = c; rw [ub, htdef]; rfl
  have gO : g.OCR3A = s.OCR3A := by rw [hgdef]; show u.OCR3A = _; rw [uO, htdef]
  have gP : g.PORTH = s.PORTH := by rw [hgdef]; show u.PORTH = _; rw [uP, htdef]
  have gC : g.OCR5A = s.OCR5A := by rw [hgdef]; show u.OCR5A = _; rw [uC, htdef]
  have gr : g._packet_rate = s._packet_rate ∨ g._packet_rate = 0 := by
    rw [hgdef]; show u._packet_rate = _ ∨ u._packet_rate = 0
    rw [htdef] at l1; exact l1
  have gs : g._speed = s._speed ∨ g._speed = 0 := by
    rw [hgdef]; show u._speed = _ ∨ u._speed = 0
    rw [htdef] at l2; exact l2
  have gd : g._direction = s._direction ∨ g._direction = 0 := by
    rw [hgdef]; show u._direction = _ ∨ u._direction = 0
    rw [htdef] at l3; exact l3
  have hgrx : g.rx = more := by rw [hgdef]
  have hd1 : g._speed = g.buf.get 1 → g.OCR3A = dutyOf g._speed := by
    intro he
    rcases gs with h | h
    · rw [gO, h, hduty]
    · rw [h, b1] at he
      exact absurd he.symm wb.2.1
  have hd2 : g._direction = g.buf.get 2 → PinsEncode g._direction g.PORTH := by
    intro he
    rcases gd with h | h
    · rw [gP, h]; exact hpins
    · rw [h, b2] at he
      exact absurd he.symm wc.2.1
  rw [step_in_loopMsg_recv behind spill F_CPU s g 5 hpc hm hg,
    commandProcessor_of_ne F_CPU g (by rw [b0]; exact hcf)]
  obtain ⟨f1, f2, f3⟩ := applyFields_session F_CPU g
  obtain ⟨g1, g2⟩ := applyFields_hardware_cond F_CPU g hd1 hd2
  have hrx2 : (applyFields F_CPU g).rx = g.rx :=
    (congrArg State.rx (hwCore_applyFields F_CPU g) :)
  have c1 : s.OCR5A = compareOf F_CPU s._packet_rate →
      (applyFields F_CPU g).OCR5A = compareOf F_CPU a := by
    intro hcmp
    rw [applyFields_OCR5A, b0]
    split_ifs with hx
    · rfl
    · have he : g._packet_rate = a := by
        by_contra hne
        exact hx ⟨hne, wa.2.1⟩
      rcases gr with h | h
      · rw [gC, hcmp, ← h, he]
      · rw [h] at he
        exact absurd he.symm wa.2.1
  rw [b0] at f1
  rw [b1] at f2 g1
  rw [b2] at f3 g2
  exact ⟨f1, f2, f3, g1, g2, c1, hrx2.trans hgrx, rfl, rfl⟩

/-- What the read leaves outside the locals of `main`, whatever lies behind
`buf`: `buf` as the read with nothing behind `buf` leaves it, registers, flags and log
untouched. -/
theorem UART_getString_in_frame (behind : List Local) (s : State) :
    (UART_getString_in behind s).1.buf = (UART_getString s).1.buf ∧
    (UART_getString_in behind s).1.rx = (UART_getString s).1.rx ∧
    (UART_getString_in behind s).1.out = s.out ∧
    (UART_getString_in behind s).1.OCR5A = s.OCR5A ∧
    (UART_getString_in behind s).1.OCR3A = s.OCR3A ∧
    (UART_getString_in behind s).1.PORTH = s.PORTH ∧
    (UART_getString_in behind s).1.ien = s.ien := by
  have h1 := (UART_getString_in_agrees behind s).1
  have h2 := rxCore_UART_getString s
  exact ⟨(congrArg State.buf h1 :), (congrArg State.rx h1 :),
    ((congrArg State.out h1 :) : _ = (UART_getString s).1.out).trans (congrArg State.out h2 :),
    ((congrArg State.OCR5A h1 :) : _ = (UART_getString s).1.OCR5A).trans
      (congrArg State.OCR5A h2 :),
    ((congrArg State.OCR3A h1 :) : _ = (UART_getString s).1.OCR3A).trans
      (congrArg State.OCR3A h2 :),
    ((congrArg State.PORTH h1 :) : _ = (UART_getString s).1.PORTH).trans
      (congrArg State.PORTH h2 :),
    ((congrArg State.ien h1 :) : _ = (UART_getString s).1.ien).trans (congrArg State.ien h2 :)⟩

/-- With nothing behind `buf`, a message whose first three bytes equal the
session state is processed silently in every reachable state: the step only
clears `msg_rcv` and appends nothing to the peripheral log.  What defeats
this on other builds is the NUL stored at `buf[4]`. -/
theorem step_same_nothing_behind (F_CPU : Nat) (s : State) (hr : Reachable F_CPU s)
    (hpc : s.pc = .loopMsg) (hm : s.msg_rcv = true)
    (hg : (UART_getString s).2 ≠ none)
    (h0 : (UART_getString s).1.buf.get 0 = s._packet_rate)
    (h1 : (UART_getString s).1.buf.get 1 = s._speed)
    (h2 : (UART_getString s).1.buf.get 2 = s._direction) :
    step_in [] [] F_CPU .prog s
      = { (UART_getString s).1 with msg_rcv := false, pc := .loopHead } ∧
    (step_in [] [] F_CPU .prog s).out = s.out := by
  have hcore := rxCore_UART_getString s
  have hne : s._packet_rate ≠ CF :=
    rate_ne_CF_of_reachable F_CPU s hr (Or.inr (Or.inr hpc))
  obtain ⟨g, n, hgn⟩ := UART_getString_some s hg
  rw [hgn] at h0 h1 h2 hcore
  simp only [] at h0 h1 h2 hcore
  have er : g._packet_rate = s._packet_rate := (congrArg State._packet_rate hcore :)
  have es : g._speed = s._speed := (congrArg State._speed hcore :)
  have ed : g._direction = s._direction := (congrArg State._direction hcore :)
  have hst := step_loopMsg_recv F_CPU s g n hpc hm hgn
  have hcp := commandProcessor_same F_CPU g (by rw [er]; exact hne) (by rw [er, h0])
    (by rw [es, h1]) (by rw [ed, h2])
  rw [step_in_nil, hst, hcp, hgn]
  exact ⟨rfl, (congrArg State.out hcore :)⟩

/-! ## Claims -/

/-- C1 (code defect): `setSpeed` does not store `(speed − 100) × 399`.  The
macro `ONE_PERCENT_STEP` expands without parentheses, so the stored value is
`((speed − 100) × 39998) ÷ 100`: `setSpeed(150)` stores 19999 rather than
`50 × 399 = 19950`, and `setSpeed(200)` stores 39998 rather than 39900. -/
theorem C1_setSpeed_unparenthesised_step (s : State) :
    (setSpeed 150 s).OCR3A = 19999 ∧ (setSpeed 150 s).OCR3A ≠ (150 - 100) * (39998 / 100) ∧
    (setSpeed 200 s).OCR3A = 39998 ∧ (setSpeed 200 s).OCR3A ≠ (200 - 100) * (39998 / 100) := by
  have h150 : dutyOf 150 = 19999 := by decide
  have h200 : dutyOf 200 = 39998 := by decide
  simp [setSpeed_OCR3A, h150, h200]

/-- C2: on speeds in [100,200] the duty `setSpeed` stores is monotonically
non-decreasing, `setSpeed(100)` stores 0, every stored duty is at most
`OCR_TOP_VALUE` = 39998 and so below the timer top 39999 that `PWM_init`
puts in `ICR3`, and the stored value is the untruncated value of the C
expression. -/
theorem C2_duty_monotone_bounded (s1 s2 : Nat) (st : State)
    (h1 : 100 ≤ s1) (h12 : s1 ≤ s2) (h2 : s2 ≤ 200) :
    (setSpeed s1 st).OCR3A ≤ (setSpeed s2 st).OCR3A ∧
    (setSpeed 100 st).OCR3A = 0 ∧
    (setSpeed s1 st).OCR3A ≤ 39998 ∧ (setSpeed s2 st).OCR3A ≤ 39998 ∧
    (PWM_init st).ICR3 = 39999 ∧
    (setSpeed s1 st).OCR3A < (PWM_init st).ICR3 ∧ (setSpeed s2 st).OCR3A < (PWM_init st).ICR3 ∧
    ((setSpeed s1 st).OCR3A : Int) = dutyExpr s1 ∧ ((setSpeed s2 st).OCR3A : Int) = dutyExpr s2 := by
  have e1 := dutyOf_of_range s1 h1 (le_trans h12 h2)
  have e2 := dutyOf_of_range s2 (le_trans h1 h12) h2
  have e0 : dutyOf 100 = 0 := by decide
  have hI : (PWM_init st).ICR3 = 39999 := by simp [PWM_init, wr, Reg.width]
  have hm : (s1 - 100) * 39998 / 100 ≤ (s2 - 100) * 39998 / 100 :=
    Nat.div_le_div_right (Nat.mul_le_mul_right _ (by omega))
  rw [hI, setSpeed_OCR3A, setSpeed_OCR3A, setSpeed_OCR3A, e0,
    dutyExpr_of_ge s1 h1, dutyExpr_of_ge s2 (le_trans h1 h12), e1, e2]
  refine ⟨hm, rfl, ?_, ?_, rfl, ?_, ?_, rfl, rfl⟩ <;> omega

/-- Witness for C2 at speeds 120 ≤ 180. -/
theorem C2_duty_monotone_bounded_witness :
    (setSpeed 120 (boot [] ⟨0, 0, 0, 0⟩)).OCR3A ≤ (setSpeed 180 (boot [] ⟨0, 0, 0, 0⟩)).OCR3A :=
  (C2_duty_monotone_bounded 120 180 (boot [] ⟨0, 0, 0, 0⟩)
    (by decide) (by decide) (by decide)).1

/-- C3: whatever `OCR3A` holds beforehand and whatever the speed byte,
`set_speed_smoothly(speed)` returns with `OCR3A` equal to the value
`setSpeed(speed)` stores, on the increasing, the decreasing and the empty
ramp alike, and with interrupts enabled again. -/
theorem C3_ramp_converges (speed : Nat) (s : State) :
    (set_speed_smoothly speed s).OCR3A = (setSpeed speed s).OCR3A ∧
    (set_speed_smoothly speed s).OCR3A = dutyOf speed ∧
    (set_speed_smoothly speed s).ien = true := by
  have h := dutyOf_lt speed
  have e : dutyOf speed % 65536 = dutyOf speed := Nat.mod_eq_of_lt h
  simp [set_speed_smoothly, setSpeed, wr, sei, Reg.width, e]

/-- C5: `setPacketRate(0)` leaves `OCR5A` (and the whole state) unchanged;
for a rate `r` in 1..255, with a clock for which the quotient fits the 16-bit
register, `setPacketRate(r)` sets `OCR5A` to `F_CPU/1024/r − 1`, so that
`(OCR5A+1)·r ≤ F_CPU/1024 < (OCR5A+2)·r`; with `F_CPU` = 16 000 000 and
`r` = 5 this is 3124, and `3125 · 5` is exactly `F_CPU/1024`. -/
theorem C5_setPacketRate (F_CPU r : Nat) (s : State) (hr1 : 1 ≤ r) (hr2 : r ≤ 255)
    (hlo : r ≤ F_CPU / 1024) (hhi : F_CPU / 1024 / r ≤ 65536) :
    setPacketRate F_CPU 0 s = s ∧
    (setPacketRate F_CPU 0 s).OCR5A = s.OCR5A ∧
    (setPacketRate F_CPU r s).OCR5A = F_CPU / 1024 / r - 1 ∧
    ((setPacketRate F_CPU r s).OCR5A + 1) * r ≤ F_CPU / 1024 ∧
    F_CPU / 1024 < ((setPacketRate F_CPU r s).OCR5A + 2) * r ∧
    (setPacketRate 16000000 5 s).OCR5A = 3124 ∧
    ((setPacketRate 16000000 5 s).OCR5A + 1) * 5 = 16000000 / 1024 := by
  have hq : 1 ≤ F_CPU / 1024 / r := (Nat.le_div_iff_mul_le (by omega)).2 (by simpa using hlo)
  have hv := setPacketRate_OCR5A F_CPU r s hr1 hlo hhi
  have h5 : (setPacketRate 16000000 5 s).OCR5A = 3124 := rfl
  have hmul : F_CPU / 1024 / r * r ≤ F_CPU / 1024 := Nat.div_mul_le_self _ _
  have hlt : F_CPU / 1024 < (F_CPU / 1024 / r + 1) * r := by
    have h1 := Nat.div_add_mod (F_CPU / 1024) r
    have h2 := Nat.mod_lt (F_CPU / 1024) (show r > 0 by omega)
    nlinarith
  refine ⟨by simp [setPacketRate], by simp [setPacketRate], hv, ?_, ?_, h5, ?_⟩
  · rw [hv, Nat.sub_add_cancel hq]
    exact hmul
  · rw [hv]
    have e2 : F_CPU / 1024 / r - 1 + 2 = F_CPU / 1024 / r + 1 := by omega
    rw [e2]
    exact hlt
  · rw [h5]

/-- Witness for C5: a 16 MHz clock and 50 packets per second. -/
theorem C5_setPacketRate_witness :
    (setPacketRate 16000000 50 (boot [] ⟨0, 0, 0, 0⟩)).OCR5A = 16000000 / 1024 / 50 - 1 :=
  (C5_setPacketRate 16000000 50 (boot [] ⟨0, 0, 0, 0⟩)
    (by decide) (by decide) (by decide) (by decide)).2.2.1

/-- C6, counterexample to the claim as stated: a command packet whose rate
byte is the sentinel 0 (or a terminator, 10 or 13) is not read whole.
`UART_getString` returns after that first byte, the packet's speed and
direction bytes stay unread, and the command processor applies the stale
`buf[1]`, `buf[2]` left by the handshake reply instead of speed 150 and
direction 0xBB. -/
theorem C6_rate_zero_cuts_frame :
    (UART_getString (framingState [0, 150, 187, 10])).1.rx = [150, 187, 10] ∧
    (UART_getString (framingState [0, 150, 187, 10])).1.buf = ⟨0, 163, 64, 10⟩ ∧
    (step 16000000 .prog (framingState [0, 150, 187, 10]))._speed = 163 ∧
    (step 16000000 .prog (framingState [0, 150, 187, 10]))._speed ≠ 150 ∧
    (step 16000000 .prog (framingState [0, 150, 187, 10]))._direction ≠ 187 ∧
    (UART_getString (framingState [10, 150, 187, 10])).1.rx = [150, 187, 10] ∧
    (step 16000000 .prog (framingState [10, 150, 187, 10]))._speed ≠ 150 ∧
    (UART_getString (framingState [13, 150, 187, 10])).1.rx = [150, 187, 10] ∧
    (step 16000000 .prog (framingState [13, 150, 187, 10]))._speed ≠ 150 := by
  decide

/-- C6, amended: for a command packet `rate, speed, direction, '\n'` with
speed in [100,200], direction 0xAA or 0xBB and a rate byte other than the
close marker, 0, `'\n'` and `'\r'`, and whatever locals of `main` lie
behind `buf`, one call of `UART_getString` consumes exactly these four bytes
and leaves `buf[0..2]` = rate, speed, direction; the command processor then holds the packet's rate,
speed and direction as session state, with the timer compare register
`OCR5A` at the value `setPacketRate` stores for the packet's rate, the duty
register at the duty of the packet's speed and the direction pins encoding
the packet's direction (given the three matched the session state
before). -/
theorem C6_command_framing (behind : List Local) (spill : List Nat) (F_CPU : Nat) (s : State)
    (rate speed dir : Nat) (more : List Nat)
    (hpc : s.pc = .loopMsg) (hm : s.msg_rcv = true)
    (hrx : s.rx = rate :: speed :: dir :: 10 :: more)
    (hrate : rate < 256) (h0 : rate ≠ 0) (h10 : rate ≠ 10) (h13 : rate ≠ 13) (hcf : rate ≠ CF)
    (hs1 : 100 ≤ speed) (hs2 : speed ≤ 200) (hd : dir = CWISE ∨ dir = CCWISE)
    (hcmp : s.OCR5A = compareOf F_CPU s._packet_rate)
    (hduty : s.OCR3A = dutyOf s._speed) (hpins : PinsEncode s._direction s.PORTH) :
    (UART_getString_in behind s).2 = some 5 ∧
    (UART_getString_in behind s).1.rx = more ∧
    (UART_getString_in behind s).1.buf.get 0 = rate ∧
    (UART_getString_in behind s).1.buf.get 1 = speed ∧
    (UART_getString_in behind s).1.buf.get 2 = dir ∧
    (step_in behind spill F_CPU .prog s).rx = more ∧
    (step_in behind spill F_CPU .prog s)._packet_rate = rate ∧
    (step_in behind spill F_CPU .prog s)._speed = speed ∧
    (step_in behind spill F_CPU .prog s)._direction = dir ∧
    (step_in behind spill F_CPU .prog s).OCR5A = compareOf F_CPU rate ∧
    (step_in behind spill F_CPU .prog s).OCR3A = dutyOf speed ∧
    PinsEncode dir (step_in behind spill F_CPU .prog s).PORTH ∧
    (step_in behind spill F_CPU .prog s).msg_rcv = false ∧
    (step_in behind spill F_CPU .prog s).pc = .loopHead := by
  have wc : dir < 256 ∧ dir ≠ 0 ∧ dir ≠ 10 ∧ dir ≠ 13 := by
    rcases hd with h | h <;> subst h <;> decide
  have wa : rate < 256 ∧ rate ≠ 0 ∧ rate ≠ 10 ∧ rate ≠ 13 := ⟨hrate, h0, h10, h13⟩
  have wb : speed < 256 ∧ speed ≠ 0 ∧ speed ≠ 10 ∧ speed ≠ 13 :=
    ⟨by omega, by omega, by omega, by omega⟩
  have hg := UART_getString_in_frame4 behind s rate speed dir more hrx wa wb wc
  have hb : (UART_getString_in behind s).1.buf = ⟨rate, speed, dir, 10⟩ := by
    rw [(UART_getString_in_frame behind s).1,
      UART_getString_frame4 s rate speed dir more hrx wa.1 wb.1 wc.1 wa.2 wb.2 wc.2]
  obtain ⟨k1, k2, k3, k4, k5, k6, k7, k8, k9⟩ :=
    step_in_frame behind spill F_CPU s rate speed dir more hpc hm hrx wa wb wc hcf hduty hpins
  refine ⟨by rw [hg], by rw [hg], by rw [hb]; rfl, by rw [hb]; rfl, by rw [hb]; rfl,
    k7, k1, k2, k3, k6 hcmp, k4, k5, k8, k9⟩

/-- Witness for C6: the packet `5, 150, 0xBB, '\n'` at the start of a
plain-mode session, on a build that places `_packet_rate` behind `buf`. -/
theorem C6_command_framing_witness :
    (framingState [5, 150, 187, 10])._packet_rate = 1 ∧
    (framingState [5, 150, 187, 10]).OCR5A = 15624 ∧
    compareOf 16000000 5 = 3124 ∧
    (step_in [Local._packet_rate] [] 16000000 .prog (framingState [5, 150, 187, 10]))._packet_rate
      = 5 ∧
    (step_in [Local._packet_rate] [] 16000000 .prog (framingState [5, 150, 187, 10]))._speed
      = 150 ∧
    (step_in [Local._packet_rate] [] 16000000 .prog (framingState [5, 150, 187, 10]))._direction
      = 187 ∧
    (step_in [Local._packet_rate] [] 16000000 .prog (framingState [5, 150, 187, 10])).OCR5A
      = compareOf 16000000 5 ∧
    (step_in [Local._packet_rate] [] 16000000 .prog (framingState [5, 150, 187, 10])).OCR3A
      = dutyOf 150 :=
  have h := C6_command_framing [Local._packet_rate] [] 16000000
    (framingState [5, 150, 187, 10]) 5 150 187 []
    rfl rfl rfl (by decide) (by decide) (by decide) (by decide) (by decide) (by decide)
    (by decide) (Or.inr rfl) (by decide) (by decide) (by unfold PinsEncode; decide)
  ⟨by decide, by decide, by decide, h.2.2.2.2.2.2.1, h.2.2.2.2.2.2.2.1, h.2.2.2.2.2.2.2.2.1,
    h.2.2.2.2.2.2.2.2.2.1, h.2.2.2.2.2.2.2.2.2.2.1⟩

/-- C7 (code defect): a message equal to the session state is not always
processed without a register store.  A fresh plain-mode session holds rate 1,
speed 100, direction 0xAA and receives the packet `1, 100, 0xAA, '\n'`.
`UART_getString` stores the four bytes in `buf[0..3]` and the terminating NUL
at `buf[4]`, one byte behind the array.  On a build that places
`_packet_rate` there the NUL sets it to 0 before the command processor
compares: the rate byte 1 then differs, `setPacketRate(1)` runs and stores to
`OCR5A`, although the packet repeats the session state.  On a build with
nothing behind `buf` the same packet appends nothing to the peripheral
log. -/
theorem C7_overrun_rewrites_OCR5A :
    (framingState [1, 100, 170, 10]).pc = .loopMsg ∧
    (framingState [1, 100, 170, 10]).msg_rcv = true ∧
    (framingState [1, 100, 170, 10]).rx = [1, 100, 170, 10] ∧
    ((framingState [1, 100, 170, 10])._packet_rate, (framingState [1, 100, 170, 10])._speed,
      (framingState [1, 100, 170, 10])._direction) = (1, 100, 170) ∧
    (UART_getString_in [Local._packet_rate] (framingState [1, 100, 170, 10])).2 = some 5 ∧
    (UART_getString_in [Local._packet_rate] (framingState [1, 100, 170, 10])).1.buf
      = ⟨1, 100, 170, 10⟩ ∧
    (UART_getString_in [Local._packet_rate] (framingState [1, 100, 170, 10])).1.mem
      = (framingState [1, 100, 170, 10]).mem ++ [MemEv.store 4 0] ∧
    (UART_getString_in [Local._packet_rate] (framingState [1, 100, 170, 10])).1._packet_rate = 0 ∧
    (step_in [Local._packet_rate] [] 16000000 .prog (framingState [1, 100, 170, 10])).out
      = (framingState [1, 100, 170, 10]).out ++ [IOEv.write .OCR5A 15624] ∧
    (step_in [Local._packet_rate] [] 16000000 .prog (framingState [1, 100, 170, 10])).out
      ≠ (framingState [1, 100, 170, 10]).out ∧
    ((step_in [Local._packet_rate] [] 16000000 .prog (framingState [1, 100, 170, 10]))._packet_rate,
      (step_in [Local._packet_rate] [] 16000000 .prog (framingState [1, 100, 170, 10]))._speed,
      (step_in [Local._packet_rate] [] 16000000 .prog (framingState [1, 100, 170, 10]))._direction)
      = (1, 100, 170) ∧
    (step_in [] [] 16000000 .prog (framingState [1, 100, 170, 10])).out
      = (framingState [1, 100, 170, 10]).out := by
  decide

/-- C8: at the `if( msg_rcv )` test with the flag set, whatever locals of
`main` lie behind `buf`, a message that starts with the close marker,
whatever follows, reaches the command processor with `buf[0] = '<'`, and the
processor clears `running` and disables interrupts and nothing else: rate, speed and direction are as the
read of the message left them, `OCR5A`, `OCR3A` and `PORTH` are untouched and
the only access logged in the step is the `cli`.  From there no interrupt
handler can run, and the next step of `main` leaves the operating loop
without sending a byte. -/
theorem C8_close_short_circuit (behind : List Local) (spill : List Nat) (F_CPU : Nat)
    (s : State) (rest : List Nat)
    (hpc : s.pc = .loopMsg) (hm : s.msg_rcv = true)
    (hrx : s.rx = CF :: rest) (hg : (UART_getString_in behind s).2 ≠ none) :
    (UART_getString_in behind s).1.buf.get 0 = CF ∧
    step_in behind spill F_CPU .prog s
      = { commandProcessor F_CPU (UART_getString_in behind s).1 with pc := .loopHead } ∧
    commandProcessor F_CPU (UART_getString_in behind s).1 =
      { (UART_getString_in behind s).1 with
          ien := false, running := false, msg_rcv := false,
          out := (UART_getString_in behind s).1.out ++ [IOEv.cli] } ∧
    (step_in behind spill F_CPU .prog s).running = false ∧
    (step_in behind spill F_CPU .prog s).ien = false ∧
    (step_in behind spill F_CPU .prog s)._packet_rate
      = (UART_getString_in behind s).1._packet_rate ∧
    (step_in behind spill F_CPU .prog s)._speed = (UART_getString_in behind s).1._speed ∧
    (step_in behind spill F_CPU .prog s)._direction = (UART_getString_in behind s).1._direction ∧
    (step_in behind spill F_CPU .prog s).OCR5A = s.OCR5A ∧
    (step_in behind spill F_CPU .prog s).OCR3A = s.OCR3A ∧
    (step_in behind spill F_CPU .prog s).PORTH = s.PORTH ∧
    (step_in behind spill F_CPU .prog s).out = s.out ++ [IOEv.cli] ∧
    (step_in behind spill F_CPU .prog s).msg_rcv = false ∧
    (step_in behind spill F_CPU .prog s).pc = .loopHead ∧
    step_in behind spill F_CPU .timer (step_in behind spill F_CPU .prog s)
      = step_in behind spill F_CPU .prog s ∧
    step_in behind spill F_CPU .rxc (step_in behind spill F_CPU .prog s)
      = step_in behind spill F_CPU .prog s ∧
    (step_in behind spill F_CPU .prog (step_in behind spill F_CPU .prog s)).pc = .drain ∧
    (step_in behind spill F_CPU .prog (step_in behind spill F_CPU .prog s)).out
      = s.out ++ [IOEv.cli] := by
  obtain ⟨fb, _, fo, f5, f3, fp, _⟩ := UART_getString_in_frame behind s
  have hb0 : (UART_getString_in behind s).1.buf.get 0 = CF := by
    rw [fb]
    unfold UART_getString
    rw [hrx]
    have hk := UART_getString_from_keeps rest 1 (storeBuf 0 (CF % 256) s) 0 (by omega)
    simp only [UART_getString_from]
    rw [if_neg (by decide), if_neg (by decide), hk]
    rfl
  obtain ⟨g, n, hgn⟩ := UART_getString_in_some behind s hg
  have hg1 : (UART_getString_in behind s).1 = g := by rw [hgn]
  rw [hg1] at hb0 fo f5 f3 fp
  have hst := step_in_loopMsg_recv behind spill F_CPU s g n hpc hm hgn
  rw [hg1, hst, commandProcessor_of_close F_CPU g hb0]
  refine ⟨hb0, rfl, rfl, rfl, rfl, rfl, rfl, rfl, f5, f3, fp, ?_, rfl, rfl, ?_, ?_, ?_, ?_⟩
  · simp [cli, fo]
  · simp [step_in, timerISR, cli]
  · simp [step_in, rxISR, cli]
  · simp [step_in, progStep_in, progStep, cli]
  · simp [step_in, progStep_in, progStep, cli, fo]

/-- Witness for C8: the close command `'<', 1, 1, '\n'` in a fresh session,
on a build that places `_packet_rate` behind `buf`. -/
theorem C8_close_short_circuit_witness :
    (step_in [Local._packet_rate] [] 16000000 .prog (framingState [60, 1, 1, 10])).running
      = false ∧
    (step_in [Local._packet_rate] [] 16000000 .prog (framingState [60, 1, 1, 10])).ien = false ∧
    (step_in [Local._packet_rate] [] 16000000 .prog (framingState [60, 1, 1, 10])).out
      = (framingState [60, 1, 1, 10]).out ++ [IOEv.cli] ∧
    (step_in [Local._packet_rate] [] 16000000 .prog
      (step_in [Local._packet_rate] [] 16000000 .prog (framingState [60, 1, 1, 10]))).pc
      = .drain :=
  have h := C8_close_short_circuit [Local._packet_rate] [] 16000000
    (framingState [60, 1, 1, 10]) [1, 1, 10] rfl rfl rfl (by decide)
  ⟨h.2.2.2.1, h.2.2.2.2.1, h.2.2.2.2.2.2.2.2.2.2.2.1, h.2.2.2.2.2.2.2.2.2.2.2.2.2.2.2.2.1⟩

/-- C10 (code defect): a timer tick of an ended session carries over.  In
the run `staleTickRun` the only timer interrupt fires in the first session;
the close command then ends that session, draining neither clears
`timer_occurred` nor disables the timer interrupt in `TIMSK5`, and the second
session enters its operating loop with `timer_occurred` still set and sends
its first telemetry packet at once, with no compare match of its own. -/
theorem C10_tick_carries_over :
    (run 16000000 staleTickRun (boot twoSessionInput ⟨0, 0, 0, 0⟩)).pc = .loopHead ∧
    (run 16000000 staleTickRun (boot twoSessionInput ⟨0, 0, 0, 0⟩)).running = true ∧
    sessionPackets 16000000 staleTickRun (boot twoSessionInput ⟨0, 0, 0, 0⟩) 0 = 0 ∧
    (run 16000000 (staleTickRun.take 10) (boot twoSessionInput ⟨0, 0, 0, 0⟩)).pc = .hsRecv ∧
    (run 16000000 staleTickRun (boot twoSessionInput ⟨0, 0, 0, 0⟩)).timer_occurred = true ∧
    (run 16000000 [.prog, .prog] (run 16000000 staleTickRun (boot twoSessionInput ⟨0, 0, 0, 0⟩))).out
      = (run 16000000 staleTickRun (boot twoSessionInput ⟨0, 0, 0, 0⟩)).out ++
        [IOEv.tx 1, IOEv.tx 100, IOEv.tx 170, IOEv.tx 10] ∧
    (∀ (F_CPU : Nat) (s : State),
      (drainSession F_CPU s).timer_occurred = s.timer_occurred ∧
      (drainSession F_CPU s).TIMSK5 = s.TIMSK5) := by
  refine ⟨by decide, by decide, by decide, by decide, by decide, by decide, ?_⟩
  intro F_CPU s
  simp [drainSession, PWM_stop, setPacketRate, setSpeed, wr, _delay_ms]

/-- C12 (code defect): a reply with the right first two bytes and an unknown
mode byte (`'A'`) does not start a plain session.  The plain acknowledgment
is sent, but neither branch of the mode test runs, so `running` keeps its
value `false`: the operating loop is skipped, the session is drained at once
and the probe is sent again.  `smooth` is not reset either: after a smooth
session it is still `true`. -/
theorem C12_unknown_mode_skips_session :
    (quietRun 2 [62, 163, 65, 10]).pc = .loopHead ∧
    (quietRun 2 [62, 163, 65, 10]).running = false ∧
    (quietRun 2 [62, 163, 65, 10]).out.take 11 =
      [IOEv.cli, IOEv.delay_ms 1500, IOEv.tx 62, IOEv.tx 163, IOEv.tx 64, IOEv.tx 10,
       IOEv.delay_ms 100, IOEv.tx 62, IOEv.tx 163, IOEv.tx 64, IOEv.tx 10] ∧
    (quietRun 3 [62, 163, 65, 10]).pc = .drain ∧
    (quietRun 4 [62, 163, 65, 10]).pc = .hsSend ∧
    (quietRun 5 [62, 163, 65, 10]).out = (quietRun 4 [62, 163, 65, 10]).out ++
      [IOEv.tx 62, IOEv.tx 163, IOEv.tx 64, IOEv.tx 10] ∧
    smoothThenUnknown.pc = .loopHead ∧
    smoothThenUnknown.running = false ∧
    smoothThenUnknown.smooth = true := by
  decide

/-- C18: for a 16-bit start value `d0` of `OCR3A` and the target `t` that
`set_speed_smoothly(speed)` computes, with `step = |t − d0| div 20`: when
`t > d0` the log of the call is `cli`, twenty passes of which the `k`-th
stores `d0 + k·step`, the exact store of `t`, `sei`; when `t < d0` the
`k`-th pass stores `d0 − k·step`; every stored value lies between `d0` and
`t` (so nothing wraps around 2^16), the value after the twentieth pass is
less than 20 away from `t`, and when `t = d0` there is no interpolation
store at all. -/
theorem C18_ramp_interpolation (speed : Nat) (s : State) (k : Nat)
    (hd0 : s.OCR3A < 65536) (hk1 : 1 ≤ k) (hk : k ≤ 20) :
    (s.OCR3A < dutyOf speed →
      (set_speed_smoothly speed s).out = s.out ++ [IOEv.cli] ++
        rampLog (fun j => s.OCR3A + j * ((dutyOf speed - s.OCR3A) / 20)) 20 ++
        [IOEv.write .OCR3A (dutyOf speed), IOEv.sei] ∧
      (rampLog (fun j => s.OCR3A + j * ((dutyOf speed - s.OCR3A) / 20)) 20)[2 * (k - 1)]?
        = some (IOEv.write .OCR3A (s.OCR3A + k * ((dutyOf speed - s.OCR3A) / 20))) ∧
      s.OCR3A ≤ s.OCR3A + k * ((dutyOf speed - s.OCR3A) / 20) ∧
      s.OCR3A + k * ((dutyOf speed - s.OCR3A) / 20) ≤ dutyOf speed ∧
      s.OCR3A + k * ((dutyOf speed - s.OCR3A) / 20) < 65536 ∧
      dutyOf speed - (s.OCR3A + 20 * ((dutyOf speed - s.OCR3A) / 20)) < 20) ∧
    (dutyOf speed < s.OCR3A →
      (set_speed_smoothly speed s).out = s.out ++ [IOEv.cli] ++
        rampLog (fun j => s.OCR3A - j * ((s.OCR3A - dutyOf speed) / 20)) 20 ++
        [IOEv.write .OCR3A (dutyOf speed), IOEv.sei] ∧
      (rampLog (fun j => s.OCR3A - j * ((s.OCR3A - dutyOf speed) / 20)) 20)[2 * (k - 1)]?
        = some (IOEv.write .OCR3A (s.OCR3A - k * ((s.OCR3A - dutyOf speed) / 20))) ∧
      k * ((s.OCR3A - dutyOf speed) / 20) ≤ s.OCR3A ∧
      dutyOf speed ≤ s.OCR3A - k * ((s.OCR3A - dutyOf speed) / 20) ∧
      s.OCR3A - k * ((s.OCR3A - dutyOf speed) / 20) ≤ s.OCR3A ∧
      (s.OCR3A - 20 * ((s.OCR3A - dutyOf speed) / 20)) - dutyOf speed < 20) ∧
    (dutyOf speed = s.OCR3A →
      (set_speed_smoothly speed s).out = s.out ++
        [IOEv.cli, IOEv.write .OCR3A (dutyOf speed), IOEv.sei]) := by
  have hd := dutyOf_lt speed
  refine ⟨fun h => ?_, fun h => ?_, fun h => ?_⟩
  · have h1 : k * ((dutyOf speed - s.OCR3A) / 20) ≤ 20 * ((dutyOf speed - s.OCR3A) / 20) :=
      Nat.mul_le_mul_right _ hk
    have h2 := Nat.mul_div_le (dutyOf speed - s.OCR3A) 20
    have h3 := Nat.div_add_mod (dutyOf speed - s.OCR3A) 20
    have h4 := Nat.mod_lt (dutyOf speed - s.OCR3A) (show 20 > 0 by decide)
    refine ⟨by rw [set_speed_smoothly_up speed s h], rampLog_get _ 20 k hk1 hk, ?_, ?_, ?_, ?_⟩ <;>
      omega
  · have h1 : k * ((s.OCR3A - dutyOf speed) / 20) ≤ 20 * ((s.OCR3A - dutyOf speed) / 20) :=
      Nat.mul_le_mul_right _ hk
    have h2 := Nat.mul_div_le (s.OCR3A - dutyOf speed) 20
    have h3 := Nat.div_add_mod (s.OCR3A - dutyOf speed) 20
    have h4 := Nat.mod_lt (s.OCR3A - dutyOf speed) (show 20 > 0 by decide)
    refine ⟨by rw [set_speed_smoothly_down speed s h hd0], rampLog_get _ 20 k hk1 hk,
      ?_, ?_, ?_, ?_⟩ <;> omega
  · rw [set_speed_smoothly_level speed s h]

/-- Witness for C18: the ramp from duty 0 to the duty of speed 150, third
pass. -/
theorem C18_ramp_interpolation_witness :
    (boot [] ⟨0, 0, 0, 0⟩).OCR3A < dutyOf 150 ∧
    (boot [] ⟨0, 0, 0, 0⟩).OCR3A + 3 * ((dutyOf 150 - (boot [] ⟨0, 0, 0, 0⟩).OCR3A) / 20)
      ≤ dutyOf 150 :=
  ⟨by decide,
   ((C18_ramp_interpolation 150 (boot [] ⟨0, 0, 0, 0⟩) 3 (by decide) (by decide) (by decide)).1
      (by decide)).2.2.2.1⟩

/-- C19 (code defect): the 4-byte arrays do not suffice.  Reading the
well-formed frame `'>'`, 163, `'@'`, `'\n'` into the 4-element `buf`,
`UART_getString` returns 5: after the four bytes it stores the terminating
NUL at index 4, one past the end.  And `UART_putString` on the 4-element
handshake array, which holds no zero byte, sends its four bytes and then
loads index 4, one past the end, to test for the terminator. -/
theorem C19_four_byte_arrays_overrun (s : State) :
    (UART_getString (boot [62, 163, 64, 10] ⟨0, 0, 0, 0⟩)).2 = some 5 ∧
    (UART_getString (boot [62, 163, 64, 10] ⟨0, 0, 0, 0⟩)).1.buf = ⟨62, 163, 64, 10⟩ ∧
    (UART_getString (boot [62, 163, 64, 10] ⟨0, 0, 0, 0⟩)).1.mem = [MemEv.store 4 0] ∧
    (UART_putString hshake s).out =
      s.out ++ [IOEv.tx 62, IOEv.tx 163, IOEv.tx 64, IOEv.tx 10] ∧
    (UART_putString hshake s).mem = s.mem ++ [MemEv.load 4] := by
  have hp : UART_putString hshake s = _ :=
    UART_putString_four OF (OF + MIN_SPEED + 1) (OF + 2) 10 s
      (by decide) (by decide) (by decide) (by decide)
  refine ⟨by decide, by decide, by decide, ?_, ?_⟩
  · rw [hp]
    rfl
  · rw [hp]

/-- C20: from a `PORTH` value in which PH5 and PH6 are not both high,
`setDirection` with any byte leaves them not both high, and so does each of
its stores to `PORTH` taken alone (the stores it logs are those of `pinLog`);
a byte other than 0xAA and 0xBB changes nothing.  Hence at every point of
every run PH5 and PH6 are not both high, nor were they after any store to
`PORTH` so far. -/
theorem C20_direction_pins_exclusive (F_CPU : Nat) (dir : Nat) (s : State)
    (rx : List Nat) (buf0 : Buf4) (evs : List Event) (h0 : NotBoth s.PORTH) :
    NotBoth (setDirection dir s).PORTH ∧
    (setDirection dir s).out = s.out ++ pinLog dir s.PORTH ∧
    (∀ v, IOEv.write .PORTH v ∈ pinLog dir s.PORTH → NotBoth v) ∧
    (dir ≠ CWISE → dir ≠ CCWISE → setDirection dir s = s) ∧
    NotBoth (run F_CPU evs (boot rx buf0)).PORTH ∧
    (∀ v, IOEv.write .PORTH v ∈ (run F_CPU evs (boot rx buf0)).out → NotBoth v) := by
  have hr := pinsSafe_run F_CPU evs (boot rx buf0) (pinsSafe_boot rx buf0)
  refine ⟨?_, setDirection_out dir s, fun v hv => pinLog_ok dir _ _ hv v rfl, ?_, hr.1,
    fun v hv => hr.2 _ hv v rfl⟩
  · rw [setDirection_PORTH]
    exact notBoth_pinsAfter dir _ h0
  · intro h1 h2
    unfold setDirection
    rw [if_neg h1, if_neg h2]

/-- Witness for C20: `setDirection(CCWISE)` while the pins encode
clockwise. -/
theorem C20_direction_pins_exclusive_witness :
    NotBoth (setDirection CCWISE (framingState [1, 100, 170, 10])).PORTH :=
  (C20_direction_pins_exclusive 16000000 CCWISE (framingState [1, 100, 170, 10]) [] ⟨0, 0, 0, 0⟩
    [] (by unfold NotBoth; decide)).1

end DcControl
